import Mathlib

/-!
# Burrow execution state

A shallow embedding of the state manager of `execution/state/state.go`
(NewState, MakeGenesisState, LoadState, Version, Hash, LoadHeight, Update, commit, Copy)
and of the envelope resolution of `rpc/rpctransact/transact_server.go`
(GetEnvelope, Envelope, txEnvelopeParam and the three broadcast/sign entry points).

Go pointers that are shared between objects are made explicit: a function that mutates
an object in Go returns the new value here.  A Go `error` is an `Option Error`
(`none` is `nil`); a Go `(value, error)` pair whose value is unusable on error is an
`Except Error value`.  The mutex of `State` is not modelled: every function below is one
sequential call.

The storage forest, the validator ring, the write buffer, the account encoding and the
write-view methods are declared in other files of the repository.  Their models are marked
`Modelled from the spec:`; constants declared elsewhere are fields of `Config`.
-/

namespace Burrow

/-! ## Data model -/

/-- Go `[]byte`; the nil slice is the empty list. -/
abbrev Bytes := List Nat

/-- Go `error` values are represented by their message. -/
abbrev Error := String

/-- Account address (`crypto.Address`). -/
abbrev Address := Bytes

/-- The `permission.BasePermissions` pair of permission bits and the mask of explicitly set bits. -/
structure BasePermissions where
  Perms : Nat
  SetBit : Nat
deriving DecidableEq

/-- The `permission.AccountPermissions` record. -/
structure AccountPermissions where
  Base : BasePermissions
  Roles : List String
deriving DecidableEq

/-- The fields of `acm.Account` that the state manager reads or writes. -/
structure Account where
  Address : Address
  Balance : Nat
  Code : Bytes
  Permissions : AccountPermissions
deriving DecidableEq

/-- The `genesis.Account` entries of a genesis document. -/
structure GenesisAccount where
  Address : Address
  Amount : Nat
  Permissions : AccountPermissions
deriving DecidableEq

/-- The `genesis.Validator` entries of a genesis document. -/
structure GenesisValidator where
  PublicKey : Bytes
  Amount : Nat
deriving DecidableEq

/-- The fields of `genesis.GenesisDoc` read by `MakeGenesisState`. -/
structure GenesisDoc where
  Accounts : List GenesisAccount
  Validators : List GenesisValidator
  GlobalPermissions : AccountPermissions
deriving DecidableEq

/-- Modelled from the spec: the values stored in the trees of the forest.  The byte encoding of
accounts and validator powers is declared outside the source files; a stored value is kept
decoded, `raw` stands for every other record (names, proposals, blocks). -/
inductive Value where
  | account (a : Account)
  | power (p : Nat)
  | raw (b : Bytes)
deriving DecidableEq

/-- Modelled from the spec: one tree of the forest, a finite map from keys to values
("get/set/iterate keys within it"). -/
abbrev Tree := AList (fun _ : Bytes => Value)

/-- Modelled from the spec: the content of every tree of the forest at one version, a finite
map from tree names to trees ("a set of named, independently versioned key-value trees"). -/
abbrev Snapshot := AList (fun _ : Bytes => Tree)

/-- Modelled from the spec: the persisted versions of a forest, a finite map from version
numbers to snapshots. -/
abbrev Versions := AList (fun _ : Int => Snapshot)

/-- Constants and functions that `state.go` uses and that are declared elsewhere in the
repository: the version offset of the height/version mapping, the permission mask
`permission.AllPermFlags`, the sentinel address `acm.GlobalPermissionsAddress`, the
Merkle root hash of a forest snapshot, and the internal invariant that a rotation of the
validator ring checks: a function of the window (most recent validator set first) and of the
validator updates pending since the last rotation, returning the error of a violation. -/
structure Config where
  VersionOffset : Int
  AllPermFlags : Nat
  GlobalPermissionsAddress : Address
  rootHash : Snapshot → Bytes
  ringInvariant : List Tree → Tree → Option Error

/-- The constant `DefaultValidatorsWindowSize` of `state.go`. -/
def DefaultValidatorsWindowSize : Nat := 10

/-- The constant `defaultCacheCapacity` of `state.go`. -/
def defaultCacheCapacity : Nat := 1024

/-- Modelled from the spec: name of the accounts tree (`keys.Account`). -/
def accountTree : Bytes := [97]

/-- Modelled from the spec: name of the name-registry tree (`keys.Name`). -/
def nameTree : Bytes := [110]

/-- Modelled from the spec: name of the proposals tree (`keys.Proposal`). -/
def proposalTree : Bytes := [112]

/-- Modelled from the spec: name of the validators tree (`keys.Validator`). -/
def validatorTree : Bytes := [118]

/-- Modelled from the spec: name of the block-metadata tree (`keys.Block`). -/
def blockTree : Bytes := [98]

/-- Read one key of one tree of a snapshot. -/
def Snapshot.get (snap : Snapshot) (tree key : Bytes) : Option Value :=
  match snap.lookup tree with
  | none => none
  | some t => t.lookup key

/-! ## Physical database and write buffer -/

/-- Modelled from the spec: the physical database (`dbm.DB`).  Its content is the set of
forest versions flushed to it; `fault` is the storage failure, if any, that every fallible
forest operation over this database reports. -/
structure DB where
  versions : Versions
  fault : Option Error

/-- Modelled from the spec: the write buffer (`storage.CacheDB`), "an in-memory staging layer
over the physical database that accumulates all pending key writes". -/
structure CacheDB where
  writes : Versions

/-- Modelled from the spec: a database batch (`dbm.Batch`). -/
structure Batch where
  writes : Versions

/-- Modelled from the spec: `storage.NewCacheDB`, an empty buffer over the database. -/
def NewCacheDB (_db : DB) : CacheDB :=
  { writes := ∅ }

/-- Modelled from the spec: `DB.NewBatch`, an empty batch. -/
def DB.NewBatch (_db : DB) : Batch :=
  { writes := ∅ }

/-- Modelled from the spec: `CacheDB.Commit(batch)` moves the buffered writes into the batch. -/
def CacheDB.Commit (c : CacheDB) (batch : Batch) : Batch × CacheDB :=
  ({ writes := c.writes ∪ batch.writes }, { writes := ∅ })

/-- Modelled from the spec: `Batch.WriteSync` writes the batch to the physical database "as one
synchronous, atomic batch". -/
def Batch.WriteSync (batch : Batch) (db : DB) : DB :=
  { db with versions := batch.writes ∪ db.versions }

/-! ## Forest -/

/-- Modelled from the spec: `storage.MutableForest`.  `saved` are the persisted versions as
the forest sees them through the write buffer, `version` and `hash` are those of the last
commit or load, `working` is the content of the writers (the committed content plus the
pending, uncommitted mutations), `fault` the storage failure of the underlying database. -/
structure MutableForest where
  saved : Versions
  version : Int
  hash : Bytes
  working : Snapshot
  fault : Option Error

/-- Modelled from the spec: `storage.NewMutableForest` over the write buffer of a database.
The error for an invalid cache capacity is not modelled: `NewState` passes the positive
constant `defaultCacheCapacity` and panics otherwise. -/
def NewMutableForest (db : DB) (_cacheDB : CacheDB) (_cacheCapacity : Nat) : MutableForest :=
  { saved := db.versions, version := 0, hash := [], working := ∅, fault := db.fault }

/-- Modelled from the spec: `MutableForest.Version`, the "current committed version". -/
def MutableForest.Version (f : MutableForest) : Int :=
  f.version

/-- Modelled from the spec: `MutableForest.Hash`, the "current committed hash". -/
def MutableForest.Hash (f : MutableForest) : Bytes :=
  f.hash

/-- Modelled from the spec: the forest as a `storage.ForestReader`: "mutations applied to the
writer before commit are not exposed through Forest readers until persisted", so a reader sees
the snapshot persisted at the current version. -/
def MutableForest.Reader (f : MutableForest) : Snapshot :=
  (f.saved.lookup f.version).getD ∅

/-- Modelled from the spec: `MutableForest.Writer(prefix)`, "open a writer scoped to a tree
name"; the writer is the working content of that tree. -/
def MutableForest.Writer (f : MutableForest) (tree : Bytes) : Except Error Tree :=
  match f.fault with
  | some err => .error err
  | none => .ok ((f.working.lookup tree).getD ∅)

/-- Modelled from the spec: the effect on the forest of mutating a writer it handed out
(`RWTree.Set` mutates the tree in place in Go). -/
def MutableForest.put (f : MutableForest) (tree : Bytes) (t : Tree) : MutableForest :=
  { f with working := f.working.insert tree t }

/-- Modelled from the spec: `MutableForest.Save`, "persisting all writers' pending state as one
new version", returning the combined root hash and the new version number.  The writes go to
the write buffer the forest was opened over. -/
def MutableForest.Save (cfg : Config) (f : MutableForest) (cacheDB : CacheDB) :
    Except Error (Bytes × Int × MutableForest × CacheDB) :=
  match f.fault with
  | some err => .error err
  | none =>
    let version := f.version + 1
    let hash := cfg.rootHash f.working
    .ok (hash, version,
      { f with saved := f.saved.insert version f.working, version := version, hash := hash },
      { cacheDB with writes := cacheDB.writes.insert version f.working })

/-- Modelled from the spec: `MutableForest.GetImmutable(version)`, a "read-only snapshot reader,
fails if version absent". -/
def MutableForest.GetImmutable (f : MutableForest) (version : Int) : Except Error Snapshot :=
  match f.fault with
  | some err => .error err
  | none =>
    match f.saved.lookup version with
    | none => .error "version does not exist"
    | some snap => .ok snap

/-- Modelled from the spec: `MutableForest.Load(version)` "hydrates the forest's mutable view to
resume writing atop version"; it fails when the version does not exist. -/
def MutableForest.Load (cfg : Config) (f : MutableForest) (version : Int) :
    Except Error MutableForest :=
  match f.fault with
  | some err => .error err
  | none =>
    match f.saved.lookup version with
    | none => .error "version does not exist"
    | some snap => .ok { f with version := version, hash := cfg.rootHash snap, working := snap }

/-- Modelled from the spec: an iteration with a callback: the items are visited in order and
the first error a callback returns stops the iteration and is returned. -/
def iterate {α σ : Type} (fn : α → σ → Option Error × σ) : List α → σ → Option Error × σ
  | [], st => (none, st)
  | x :: xs, st =>
    match fn x st with
    | (some err, st) => (some err, st)
    | (none, st) => iterate fn xs st

/-- Modelled from the spec: `MutableForest.IterateRWTree`, "iterates every tree in the source
Forest" at its last commit; the callback receives the tree name and the tree.  The range
arguments of the source call are `nil, nil, true` (every tree, ascending). -/
def MutableForest.IterateRWTree {σ : Type} (f : MutableForest)
    (fn : Bytes → Tree → σ → Option Error × σ) (st : σ) : Option Error × σ :=
  match f.fault with
  | some err => (some err, st)
  | none => iterate (fun e => fn e.1 e.2) f.Reader.entries st

/-- Modelled from the spec: `RWTree.IterateWriteTree`, "within each tree every key/value pair".
The range arguments of the source call are `nil, nil, true`. -/
def IterateWriteTree {σ : Type} (t : Tree)
    (fn : Bytes → Value → σ → Option Error × σ) (st : σ) : Option Error × σ :=
  iterate (fun e => fn e.1 e.2) t.entries st

/-! ## Validator ring -/

/-- Modelled from the spec: total voting power of a validator set. -/
def totalPower (t : Tree) : Int :=
  (t.entries.map (fun e => match e.2 with | .power p => (p : Int) | _ => 0)).sum

/-- Modelled from the spec: the power of one validator in a validator set. -/
def powerOf (t : Tree) (id : Bytes) : Int :=
  match t.lookup id with
  | some (.power p) => (p : Int)
  | _ => 0

/-- Modelled from the spec: `validator.Ring`, "a fixed-size sliding window of validator-set
snapshots".  `buckets` are the snapshots, most recent first; `pending` are the validator updates
written since the last rotation. -/
structure Ring where
  buckets : List Tree
  size : Nat
  pending : Tree

/-- Modelled from the spec: `validator.NewRing(nil, size)`, an empty ring. -/
def NewRing (size : Nat) : Ring :=
  { buckets := [], size := size, pending := ∅ }

/-- Modelled from the spec: `Ring.SetPower`, "writing validator updates". -/
def Ring.SetPower (r : Ring) (id : Bytes) (power : Nat) : Ring :=
  { r with pending := r.pending.insert id (.power power) }

/-- Modelled from the spec: `Ring.Rotate` "advances the validator window by one step, producing
an aggregate voting-power delta and a flow metric (total absolute power movement)"; "rotation
failure (e.g., an internal invariant about window bounds is violated)" is the error of the
invariant `Config.ringInvariant` on the current window and pending updates, so whether a
rotation fails depends on the state of the ring and changes with the writes to it.  A failed
rotation leaves the ring as it was. -/
def Ring.Rotate (cfg : Config) (r : Ring) : Except Error (Int × Int × Ring) :=
  match cfg.ringInvariant r.buckets r.pending with
  | some err => .error err
  | none =>
    let head := r.buckets.headD ∅
    let next := r.pending ∪ head
    let totalPowerChange := totalPower next - totalPower head
    let totalFlow := (r.pending.keys.map (fun id => |powerOf next id - powerOf head id|)).sum
    .ok (totalPowerChange, totalFlow,
      { r with buckets := (next :: r.buckets).take r.size, pending := ∅ })

/-- Modelled from the spec: the ring as a `validator.History`, "reading historical validator
sets": the validator set as of `blocksAgo` rotations ago. -/
def Ring.Validators (r : Ring) (blocksAgo : Nat) : Option Tree :=
  r.buckets.get? blocksAgo

/-! ## State -/

/-- Modelled from the spec: `acmstate.AccountStats`, the "count of accounts carrying code, count
without". -/
structure AccountStats where
  AccountsWithCode : Nat
  AccountsWithoutCode : Nat
deriving DecidableEq

/-- Modelled from the spec: `logging.Logger`; the informational messages of `commit` carry the
power change and the flow.  A no-op logger drops them. -/
structure Logger where
  enabled : Bool
  messages : List (Int × Int)
deriving DecidableEq

/-- Modelled from the spec: `logging.NewNoopLogger`. -/
def NewNoopLogger : Logger :=
  { enabled := false, messages := [] }

/-- Modelled from the spec: `Logger.InfoMsg("validator set changes", ...)`. -/
def Logger.InfoMsg (l : Logger) (totalPowerChange totalFlow : Int) : Logger :=
  if l.enabled then { l with messages := (totalPowerChange, totalFlow) :: l.messages } else l

/-- The struct `writeState` of `state.go`: it "wraps state to give access to writer methods". -/
structure writeState where
  forest : MutableForest
  accountStats : AccountStats
  ring : Ring

/-- The struct `ReadState` of `state.go`: a forest reader and a validator history. -/
structure ReadState where
  Forest : Snapshot
  History : Ring

/-- The struct `State` of `state.go`.  Its embedded `ReadState` holds the same forest and ring
objects as `writeState` (NewState and LoadState assign both), so it is computed from
`writeState` by `State.ReadState`. -/
structure State where
  db : DB
  cacheDB : CacheDB
  writeState : writeState
  logger : Logger

/-- The embedded `ReadState` of a `State`: the forest as a reader and the ring as history. -/
def State.ReadState (s : State) : ReadState :=
  { Forest := s.writeState.forest.Reader, History := s.writeState.ring }

/-- `NewState(db)` of `state.go`. -/
def NewState (db : DB) : State :=
  let cacheDB := NewCacheDB db
  let forest := NewMutableForest db cacheDB defaultCacheCapacity
  let ring := NewRing DefaultValidatorsWindowSize
  let ws : writeState := { forest := forest, accountStats := ⟨0, 0⟩, ring := ring }
  { db := db, cacheDB := cacheDB, writeState := ws, logger := NewNoopLogger }

/-- `State.Version()` of `state.go`. -/
def State.Version (s : State) : Int :=
  s.writeState.forest.Version

/-- `State.Hash()` of `state.go`. -/
def State.Hash (s : State) : Bytes :=
  s.writeState.forest.Hash

/-- `State.SetLogger` of `state.go`. -/
def State.SetLogger (s : State) (logger : Logger) : State :=
  { s with logger := logger }

/-- `State.commit()` of `state.go`: Save, then Rotate, then the flush of the write buffer.
The result is the Go triple `(hash, version, err)` and the state after the call. -/
def State.commit (cfg : Config) (s : State) : (Bytes × Int × Option Error) × State :=
  match s.writeState.forest.Save cfg s.cacheDB with
  | .error err => (([], 0, some err), s)
  | .ok (hash, version, forest, cacheDB) =>
    let s := { s with cacheDB := cacheDB, writeState := { s.writeState with forest := forest } }
    match s.writeState.ring.Rotate cfg with
    | .error err => (([], 0, some err), s)
    | .ok (totalPowerChange, totalFlow, ring) =>
      let s := { s with writeState := { s.writeState with ring := ring } }
      let logger :=
        if totalFlow ≠ 0 then s.logger.InfoMsg totalPowerChange totalFlow else s.logger
      let batch := s.db.NewBatch
      let (batch, cacheDB) := s.cacheDB.Commit batch
      let db := batch.WriteSync s.db
      ((hash, version, none), { s with db := db, cacheDB := cacheDB, logger := logger })

/-- `State.Update(updater)` of `state.go`.  The updater receives the write view and returns its
error together with the write view as it left it. -/
def State.Update (cfg : Config) (s : State)
    (updater : Burrow.writeState → Option Error × Burrow.writeState) :
    (Bytes × Int × Option Error) × State :=
  match updater s.writeState with
  | (some err, ws) => (([], 0, some err), { s with writeState := ws })
  | (none, ws) => State.commit cfg { s with writeState := ws }

/-! ## Write view and read view methods -/

/-- Modelled from the spec: the statistics tracker, "updated incrementally whenever an
account's code presence changes": a new account is counted in its category, an existing
account whose code presence changes moves between the categories. -/
def AccountStats.track (stats : AccountStats) (old : Option Value) (account : Account) :
    AccountStats :=
  match old with
  | some (.account previous) =>
    if previous.Code.isEmpty = account.Code.isEmpty then stats
    else if account.Code.isEmpty then
      { AccountsWithCode := stats.AccountsWithCode - 1,
        AccountsWithoutCode := stats.AccountsWithoutCode + 1 }
    else
      { AccountsWithCode := stats.AccountsWithCode + 1,
        AccountsWithoutCode := stats.AccountsWithoutCode - 1 }
  | _ =>
    if account.Code.isEmpty then
      { stats with AccountsWithoutCode := stats.AccountsWithoutCode + 1 }
    else
      { stats with AccountsWithCode := stats.AccountsWithCode + 1 }

/-- Modelled from the spec: `writeState.UpdateAccount`, the "account upsert" of the write view:
it sets the account in the writer of the accounts tree and keeps the statistics. -/
def writeState.UpdateAccount (ws : writeState) (account : Account) : Except Error writeState :=
  match ws.forest.Writer accountTree with
  | .error err => .error err
  | .ok tree =>
    .ok { ws with
      forest := ws.forest.put accountTree (tree.insert account.Address (.account account)),
      accountStats := ws.accountStats.track (tree.lookup account.Address) account }

/-- Modelled from the spec: one write of a record into a tree of the forest, shared by the
"name-record upsert, proposal upsert, block-metadata append" of the write view. -/
def writeState.setRaw (ws : writeState) (tree key value : Bytes) : Except Error writeState :=
  match ws.forest.Writer tree with
  | .error err => .error err
  | .ok t => .ok { ws with forest := ws.forest.put tree (t.insert key (.raw value)) }

/-- Modelled from the spec: `writeState.UpdateName`, the "name-record upsert". -/
def writeState.UpdateName (ws : writeState) (name entry : Bytes) : Except Error writeState :=
  ws.setRaw nameTree name entry

/-- Modelled from the spec: `writeState.UpdateProposal`, the "proposal upsert". -/
def writeState.UpdateProposal (ws : writeState) (hash proposal : Bytes) :
    Except Error writeState :=
  ws.setRaw proposalTree hash proposal

/-- Modelled from the spec: `writeState.AddBlock`, the "block-metadata append". -/
def writeState.AddBlock (ws : writeState) (height : Nat) (block : Bytes) :
    Except Error writeState :=
  ws.setRaw blockTree [height] block

/-- Modelled from the spec: `writeState.SetPower`, the "validator-set update": the power is
written to the ring and to the validators tree of the forest. -/
def writeState.SetPower (ws : writeState) (id : Bytes) (power : Nat) : Except Error writeState :=
  match ws.forest.Writer validatorTree with
  | .error err => .error err
  | .ok tree =>
    .ok { ws with
      ring := ws.ring.SetPower id power,
      forest := ws.forest.put validatorTree (tree.insert id (.power power)) }

/-- Modelled from the spec: `writeState.MakeGenesisValidators` "initializes the validator set
from the genesis document". -/
def writeState.MakeGenesisValidators (ws : writeState) (genesisDoc : GenesisDoc) :
    Except Error writeState :=
  genesisDoc.Validators.foldlM (fun ws gv => ws.SetPower gv.PublicKey gv.Amount) ws

/-- Modelled from the spec: the calls an updater can make on the write view it is handed
(the `Updatable` interface): "account upsert, name-record upsert, proposal upsert,
validator-set update, block-metadata append". -/
inductive Op where
  | UpdateAccount (account : Account)
  | UpdateName (name entry : Bytes)
  | UpdateProposal (hash proposal : Bytes)
  | SetPower (id : Bytes) (power : Nat)
  | AddBlock (height : Nat) (block : Bytes)
deriving DecidableEq

/-- The write-view method an `Op` stands for. -/
def Op.run (ws : writeState) : Op → Except Error writeState
  | .UpdateAccount account => ws.UpdateAccount account
  | .UpdateName name entry => ws.UpdateName name entry
  | .UpdateProposal hash proposal => ws.UpdateProposal hash proposal
  | .SetPower id power => ws.SetPower id power
  | .AddBlock height block => ws.AddBlock height block

/-- One call of an updater on the write view: a call that fails leaves the write view as it
was. -/
def Op.apply (ws : writeState) (op : Op) : writeState :=
  match op.run ws with
  | .ok ws => ws
  | .error _ => ws

/-- An updater, as `State.Update` receives it: it makes the calls `ops` on the write view, in
order, and returns `result`. -/
def script (ops : List Op) (result : Option Error) : writeState → Option Error × writeState :=
  fun ws => (result, ops.foldl Op.apply ws)

/-- Modelled from the spec: `ReadState.GetAccount`, the account read of the read view. -/
def ReadState.GetAccount (rs : ReadState) (address : Address) : Option Account :=
  match rs.Forest.get accountTree address with
  | some (.account a) => some a
  | _ => none

/-- Modelled from the spec: `ReadState.GetName`, the name-record read of the read view. -/
def ReadState.GetName (rs : ReadState) (name : Bytes) : Option Bytes :=
  match rs.Forest.get nameTree name with
  | some (.raw entry) => some entry
  | _ => none

/-- Modelled from the spec: `ReadState.Validators`, the validator-set read of the read view. -/
def ReadState.Validators (rs : ReadState) (blocksAgo : Nat) : Option Tree :=
  rs.History.Validators blocksAgo

/-- Modelled from the spec: `State.GetAccountStats`, the statistics counters. -/
def State.GetAccountStats (s : State) : AccountStats :=
  s.writeState.accountStats

/-- Modelled from the spec: `ReadState.IterateAccounts`, the "full scan of all accounts": the
consumer is called on every account of the accounts tree; a record that is not an account is
a decoding error. -/
def ReadState.IterateAccounts {σ : Type} (rs : ReadState)
    (consumer : Account → σ → Option Error × σ) (st : σ) : Option Error × σ :=
  iterate (fun e st =>
      match e.2 with
      | .account acc => consumer acc st
      | _ => (some "could not decode account", st))
    ((rs.Forest.lookup accountTree).getD ∅).entries st

/-- The value of a Go `int64` computation whose mathematical result is `x`: conversions to
`int64` and `int64` additions wrap modulo 2^64 into the range from -2^63 to 2^63 - 1. -/
def wrapInt64 (x : Int) : Int :=
  (x + 2 ^ 63) % 2 ^ 64 - 2 ^ 63

/-- Modelled from the spec: `VersionAtHeight`, "version = height + offset".  `LoadHeight` passes
a `uint64` height and uses the result as the `int64` version of `GetImmutable`, so the height is
converted to `int64` and the offset added in `int64`. -/
def VersionAtHeight (cfg : Config) (height : Nat) : Int :=
  wrapInt64 (wrapInt64 (height : Int) + cfg.VersionOffset)

/-- Modelled from the spec: the validator sets of up to `n` versions ending at `version`, most
recent first, "via repeated immutable-snapshot lookups"; versions below `first` do not
exist. -/
def loadBuckets (getImmutable : Int → Except Error Snapshot) (first : Int) :
    Nat → Int → Except Error (List Tree)
  | 0, _ => .ok []
  | n + 1, version =>
    if version < first then .ok []
    else
      match getImmutable version with
      | .error err => .error err
      | .ok snap =>
        match loadBuckets getImmutable first n (version - 1) with
        | .error err => .error err
        | .ok rest => .ok ((snap.lookup validatorTree).getD ∅ :: rest)

/-- Modelled from the spec: `LoadValidatorRing` "reconstructs the validator ring's window by
replaying history up to version"; it fails when a snapshot lookup fails. -/
def LoadValidatorRing (cfg : Config) (version : Int) (ringSize : Nat)
    (getImmutable : Int → Except Error Snapshot) : Except Error Ring :=
  match loadBuckets getImmutable cfg.VersionOffset ringSize version with
  | .error err => .error err
  | .ok buckets => .ok { buckets := buckets, size := ringSize, pending := ∅ }

/-! ## Bootstrap, historical reads and copy -/

/-- The account `MakeGenesisState` builds for one genesis account. -/
def genesisAccount (genAcc : GenesisAccount) : Account :=
  { Address := genAcc.Address, Balance := genAcc.Amount, Code := [],
    Permissions := genAcc.Permissions }

/-- The global-permissions account `MakeGenesisState` builds: the permissions of the document
with `Base.SetBit` overwritten by `AllPermFlags`, at the sentinel address, balance 1337. -/
def permsAccount (cfg : Config) (genesisDoc : GenesisDoc) : Account :=
  let globalPerms := genesisDoc.GlobalPermissions
  let globalPerms := { globalPerms with Base := { globalPerms.Base with SetBit := cfg.AllPermFlags } }
  { Address := cfg.GlobalPermissionsAddress, Balance := 1337, Code := [],
    Permissions := globalPerms }

/-- `MakeGenesisState(db, genesisDoc)` of `state.go`. -/
def MakeGenesisState (cfg : Config) (db : DB) (genesisDoc : GenesisDoc) : Except Error State :=
  let s := NewState db
  let errHeader := "MakeGenesisState():"
  match genesisDoc.Accounts.foldlM (fun ws genAcc => ws.UpdateAccount (genesisAccount genAcc))
      s.writeState with
  | .error err => .error (errHeader ++ " " ++ err)
  | .ok ws =>
    match ws.MakeGenesisValidators genesisDoc with
    | .error err => .error (errHeader ++ " " ++ err)
    | .ok ws =>
      match ws.UpdateAccount (permsAccount cfg genesisDoc) with
      | .error err => .error (errHeader ++ " " ++ err)
      | .ok ws =>
        match State.commit cfg { s with writeState := ws } with
        | ((_, _, some err), _) =>
          .error (errHeader ++ " could not save genesis state: " ++ err)
        | ((_, version, none), s) =>
          if version ≠ cfg.VersionOffset then
            .error (errHeader ++ " got version " ++ toString version ++
              " after committing genesis state but version offset should be " ++
              toString cfg.VersionOffset)
          else .ok s

/-- `LoadState(db, version)` of `state.go`.  The comment above the source function says it
"returns nil with no error if no state found"; the code returns the error of `Load` (wrapped)
in that case, and so does this definition. -/
def LoadState (cfg : Config) (db : DB) (version : Int) : Except Error State :=
  let s := NewState db
  match s.writeState.forest.Load cfg version with
  | .error err =>
    .error ("could not load MutableForest at version " ++ toString version ++ ": " ++ err)
  | .ok forest =>
    let s := { s with writeState := { s.writeState with forest := forest } }
    match s.ReadState.IterateAccounts (fun acc stats =>
        if acc.Code.length > 0 then
          (none, { stats with AccountsWithCode := stats.AccountsWithCode + 1 })
        else
          (none, { stats with AccountsWithoutCode := stats.AccountsWithoutCode + 1 }))
        s.writeState.accountStats with
    | (some err, _) => .error err
    | (none, stats) =>
      let s := { s with writeState := { s.writeState with accountStats := stats } }
      match LoadValidatorRing cfg version DefaultValidatorsWindowSize
          s.writeState.forest.GetImmutable with
      | .error err => .error err
      | .ok ring => .ok { s with writeState := { s.writeState with ring := ring } }

/-- `State.LoadHeight(height)` of `state.go`. -/
def State.LoadHeight (cfg : Config) (s : State) (height : Nat) :
    Except Error Burrow.ReadState :=
  let version := VersionAtHeight cfg height
  match s.writeState.forest.GetImmutable version with
  | .error err => .error err
  | .ok forest =>
    match LoadValidatorRing cfg version DefaultValidatorsWindowSize
        s.writeState.forest.GetImmutable with
    | .error err => .error err
    | .ok ring => .ok { Forest := forest, History := ring }

/-- The callback `State.Copy` passes to `IterateRWTree`: it opens the writer of the same tree in
the forest of the copy and sets every key/value pair of the source tree in it. -/
def copyTree (name : Bytes) (tree : Tree) (forestCopy : MutableForest) :
    Option Error × MutableForest :=
  match forestCopy.Writer name with
  | .error err => (some err, forestCopy)
  | .ok treeCopy =>
    match IterateWriteTree tree (fun key value treeCopy => (none, treeCopy.insert key value))
        treeCopy with
    | (err, treeCopy) => (err, forestCopy.put name treeCopy)

/-- `State.Copy(db)` of `state.go`.  The source does not assign the error that
`IterateRWTree` returns. -/
def State.Copy (cfg : Config) (s : State) (db : DB) : Except Error State :=
  let stateCopy := NewState db
  match s.writeState.forest.IterateRWTree copyTree stateCopy.writeState.forest with
  | (_, forestCopy) =>
    let stateCopy :=
      { stateCopy with writeState := { stateCopy.writeState with forest := forestCopy } }
    match State.commit cfg stateCopy with
    | ((_, _, some err), _) => .error err
    | ((_, _, none), stateCopy) => .ok stateCopy

/-! ## Transact server (`rpc/rpctransact/transact_server.go`) -/

/-- The `payload.CallTx` transaction; only its identity matters to the envelope resolution. -/
structure CallTx where
  Input : Address
  Address : Option Address
  Data : Bytes
deriving DecidableEq

/-- The `payload.SendTx` transaction. -/
structure SendTx where
  Inputs : List Address
  Outputs : List Address
deriving DecidableEq

/-- The `payload.NameTx` transaction. -/
structure NameTx where
  Input : Address
  Name : String
  Data : String
deriving DecidableEq

/-- A value of the Go interface `payload.Payload`: a pointer (possibly nil) to one of the
three transaction types the server handles, or anything else (another payload type, or the nil
interface value). -/
inductive Payload where
  | CallTx (tx : Option CallTx)
  | SendTx (tx : Option SendTx)
  | NameTx (tx : Option NameTx)
  | other (kind : Nat)
deriving DecidableEq

/-- The request type `PayloadParam`: at most one of the three pointers is expected to be set. -/
structure PayloadParam where
  CallTx : Option CallTx
  SendTx : Option SendTx
  NameTx : Option NameTx
deriving DecidableEq

/-- The request type `TxEnvelopeParam`: an optional envelope and an optional payload.  The
type `Env` is `txs.Envelope`, declared outside the source file. -/
structure TxEnvelopeParam (Env : Type) where
  Envelope : Option Env
  Payload : Option PayloadParam

/-- `PayloadParam.Envelope(chainID)` of `transact_server.go`.  `Enclose` is `txs.Enclose`,
declared outside the source file; it returns a pointer. -/
def PayloadParam.Envelope {Env : Type} (Enclose : String → Burrow.Payload → Option Env)
    (pp : PayloadParam) (chainID : String) : Option Env :=
  if pp.CallTx ≠ none then Enclose chainID (.CallTx pp.CallTx)
  else if pp.SendTx ≠ none then Enclose chainID (.SendTx pp.SendTx)
  else if pp.NameTx ≠ none then Enclose chainID (.NameTx pp.NameTx)
  else none

/-- `TxEnvelopeParam.GetEnvelope(chainID)` of `transact_server.go`; the receiver may be nil. -/
def TxEnvelopeParam.GetEnvelope {Env : Type}
    (Enclose : String → Burrow.Payload → Option Env)
    (te : Option (TxEnvelopeParam Env)) (chainID : String) : Option Env :=
  match te with
  | none => none
  | some te =>
    match te.Envelope with
    | some env => some env
    | none =>
      match te.Payload with
      | some pp => pp.Envelope Enclose chainID
      | none => none

/-- `txEnvelopeParam(pl)` of `transact_server.go`: the type switch on the payload. -/
def txEnvelopeParam {Env : Type} (pl : Payload) : Option (TxEnvelopeParam Env) :=
  match pl with
  | .CallTx tx =>
    some { Envelope := none, Payload := some { CallTx := tx, SendTx := none, NameTx := none } }
  | .SendTx tx =>
    some { Envelope := none, Payload := some { CallTx := none, SendTx := tx, NameTx := none } }
  | .NameTx tx =>
    some { Envelope := none, Payload := some { CallTx := none, SendTx := none, NameTx := tx } }
  | .other _ => none

/-- The `execution.Transactor` the server delegates to, declared outside the source file: the
chain id of its tip (`Tip.ChainID()`) and its three entry points. -/
structure Transactor (Env TxExecution Receipt : Type) where
  ChainID : String
  BroadcastTxSync : Env → Except Error TxExecution
  BroadcastTxAsync : Env → Except Error Receipt
  SignTx : Env → Except Error Env

/-- The struct `transactServer` of `transact_server.go`; its `txCodec` is not used by the
methods below. -/
structure transactServer (Env TxExecution Receipt : Type) where
  transactor : Transactor Env TxExecution Receipt

/-- `transactServer.BroadcastTxSync` of `transact_server.go`. -/
def transactServer.BroadcastTxSync {Env TxExecution Receipt : Type}
    (Enclose : String → Burrow.Payload → Option Env)
    (ts : transactServer Env TxExecution Receipt)
    (param : Option (TxEnvelopeParam Env)) : Except Error TxExecution :=
  match TxEnvelopeParam.GetEnvelope Enclose param ts.transactor.ChainID with
  | none => .error "no transaction envelope or payload provided"
  | some txEnv => ts.transactor.BroadcastTxSync txEnv

/-- `transactServer.BroadcastTxAsync` of `transact_server.go`. -/
def transactServer.BroadcastTxAsync {Env TxExecution Receipt : Type}
    (Enclose : String → Burrow.Payload → Option Env)
    (ts : transactServer Env TxExecution Receipt)
    (param : Option (TxEnvelopeParam Env)) : Except Error Receipt :=
  match TxEnvelopeParam.GetEnvelope Enclose param ts.transactor.ChainID with
  | none => .error "no transaction envelope or payload provided"
  | some txEnv => ts.transactor.BroadcastTxAsync txEnv

/-- `transactServer.SignTx` of `transact_server.go`; the result is the envelope of the returned
`TxEnvelope`. -/
def transactServer.SignTx {Env TxExecution Receipt : Type}
    (Enclose : String → Burrow.Payload → Option Env)
    (ts : transactServer Env TxExecution Receipt)
    (param : Option (TxEnvelopeParam Env)) : Except Error Env :=
  match TxEnvelopeParam.GetEnvelope Enclose param ts.transactor.ChainID with
  | none => .error "no transaction envelope or payload provided"
  | some txEnv =>
    match ts.transactor.SignTx txEnv with
    | .error err => .error err
    | .ok txEnv => .ok txEnv

/-! ## Sequences of updates and the frame of the write-view methods -/

/-- Two write views agree on what commits have persisted: the saved versions, the committed
version and hash and the storage fault of the forest, and the rotated buckets and the size of
the ring. -/
def writeState.sameCommitted (a b : writeState) : Prop :=
  a.forest.saved = b.forest.saved ∧ a.forest.version = b.forest.version ∧
  a.forest.hash = b.forest.hash ∧ a.forest.fault = b.forest.fault ∧
  a.ring.buckets = b.ring.buckets ∧ a.ring.size = b.ring.size

/-- The accounts tree of the writer of a write view (committed content and pending writes). -/
def writeState.accounts (ws : writeState) : Tree :=
  (ws.forest.working.lookup accountTree).getD ∅

/-- A sequence of `Update` calls on one `State`: the result of every call with the state it
leaves. -/
def State.Updates (cfg : Config) :
    State → List (Burrow.writeState → Option Error × Burrow.writeState) →
    List ((Bytes × Int × Option Error) × State)
  | _, [] => []
  | s, u :: us => s.Update cfg u :: State.Updates cfg (s.Update cfg u).2 us

/-- The versions returned by the successful calls of a sequence of `Update` calls, in order. -/
def successVersions (trace : List ((Bytes × Int × Option Error) × State)) : List Int :=
  (trace.filter (fun r => r.1.2.2.isNone)).map (fun r => r.1.2.1)

/-- No failed call of a sequence of `Update` calls left the forest at another version than it
found: `version` is `Version()` before the first call.  It fails for a sequence with a commit
whose Save advanced the forest and whose Rotate then failed. -/
def noTornCommit :
    Int → List ((Bytes × Int × Option Error) × State) → Bool
  | _, [] => true
  | version, r :: rs =>
    (r.1.2.2.isNone || decide (r.2.Version = version)) && noTornCommit r.2.Version rs

/-! ## Example values -/

/-- Example configuration: version offset 1, fifteen permission flags, a one-byte sentinel
address, the tree names of a snapshot as its root hash, and as invariant of the ring that the
total validator power after the rotation fits a signed 64-bit integer. -/
def cfg0 : Config :=
  { VersionOffset := 1, AllPermFlags := 32767, GlobalPermissionsAddress := [0],
    rootHash := fun snap => snap.keys.flatten,
    ringInvariant := fun buckets pending =>
      if totalPower (pending ∪ buckets.headD ∅) > 9223372036854775807 then
        some "validator power out of bounds"
      else none }

/-- Example database: empty and healthy. -/
def db0 : DB :=
  { versions := ∅, fault := none }

/-- Example account without code, balance 100. -/
def accA : Account :=
  { Address := [1], Balance := 100, Code := [], Permissions := ⟨⟨0, 0⟩, []⟩ }

/-- Example account with code. -/
def accC : Account :=
  { Address := [2], Balance := 0, Code := [96, 0], Permissions := ⟨⟨0, 0⟩, []⟩ }

/-- Example state: empty, over the healthy example database, with a pending validator update
that violates the invariant of the ring of `cfg0`, so that its rotation fails. -/
def ringFaulty : State :=
  { NewState db0 with
    writeState := { (NewState db0).writeState with
      ring := (NewRing DefaultValidatorsWindowSize).SetPower [7] 9223372036854775808 } }

/-- Example database whose storage fails. -/
def dbFaulty : DB :=
  { versions := ∅, fault := some "disk failure" }

/-- Example state: the account `accA` committed at version 1, over a storage that has been
failing since that commit. -/
def sourceFailing : State :=
  let s := ((NewState db0).Update cfg0 (script [.UpdateAccount accA] none)).2
  { s with writeState := { s.writeState with
      forest := { s.writeState.forest with fault := some "disk failure" } } }

/-- Example database: the physical database after one update of the empty state committed the
accounts `accA` (no code) and `accC` (code) as version 1. -/
def db1 : DB :=
  ((NewState db0).Update cfg0 (script [.UpdateAccount accA, .UpdateAccount accC] none)).2.db

/-- Example state: `LoadState` of `db1` at version 1. -/
def loaded1 : State :=
  match LoadState cfg0 db1 1 with
  | .ok s => s
  | .error _ => NewState db1

/-- Example database: a healthy database that holds, under version 0, a snapshot whose accounts
tree has the account `accA`. -/
def dbZero : DB :=
  { versions := (∅ : Versions).insert 0
      ((∅ : Snapshot).insert accountTree ((∅ : Tree).insert [1] (.account accA))),
    fault := none }

/-- Example state: the account `accA` (balance 100) committed as version 1 of the empty
database. -/
def stateV1 : State :=
  ((NewState db0).Update cfg0 (script [.UpdateAccount accA] none)).2

/-- Example view: `LoadHeight` of `stateV1` at height 0, that is at version 1. -/
def viewV1 : ReadState :=
  match stateV1.LoadHeight cfg0 0 with
  | .ok view => view
  | .error _ => { Forest := ∅, History := NewRing 0 }

/-- Example genesis document: one genesis account (address 1, amount 100), no validator. -/
def docOne : GenesisDoc :=
  { Accounts := [⟨[1], 100, ⟨⟨0, 0⟩, []⟩⟩], Validators := [],
    GlobalPermissions := ⟨⟨3, 0⟩, []⟩ }

/-- Example genesis document: no account, one validator. -/
def docValidator : GenesisDoc :=
  { Accounts := [], Validators := [⟨[7], 10⟩], GlobalPermissions := ⟨⟨3, 0⟩, []⟩ }

/-- Example genesis document: no account and no validator. -/
def docEmpty : GenesisDoc :=
  { Accounts := [], Validators := [], GlobalPermissions := ⟨⟨3, 0⟩, []⟩ }

/-- Example genesis document: one genesis account and a validator whose power violates the
invariant of the ring of `cfg0`. -/
def docHeavy : GenesisDoc :=
  { Accounts := [⟨[1], 100, ⟨⟨0, 0⟩, []⟩⟩], Validators := [⟨[7], 9223372036854775808⟩],
    GlobalPermissions := ⟨⟨3, 0⟩, []⟩ }

/-- Example genesis document: two genesis accounts with the same address, amounts 100 and 5. -/
def docRepeated : GenesisDoc :=
  { Accounts := [⟨[1], 100, ⟨⟨0, 0⟩, []⟩⟩, ⟨[1], 5, ⟨⟨0, 0⟩, []⟩⟩], Validators := [],
    GlobalPermissions := ⟨⟨3, 0⟩, []⟩ }

/-- Example genesis document: one genesis account at the sentinel address of `cfg0`. -/
def docSentinel : GenesisDoc :=
  { Accounts := [⟨[0], 100, ⟨⟨0, 0⟩, []⟩⟩], Validators := [],
    GlobalPermissions := ⟨⟨3, 0⟩, []⟩ }

/-- Example genesis document: accounts at the addresses 1 and 2, one validator. -/
def docTwo : GenesisDoc :=
  { Accounts := [⟨[1], 100, ⟨⟨0, 0⟩, []⟩⟩, ⟨[2], 0, ⟨⟨0, 0⟩, []⟩⟩],
    Validators := [⟨[7], 10⟩], GlobalPermissions := ⟨⟨3, 0⟩, ["root"]⟩ }

/-- Example state: the genesis state of `docTwo` on the empty database. -/
def genesisTwo : State :=
  match MakeGenesisState cfg0 db0 docTwo with
  | .ok s => s
  | .error _ => NewState db0

/-- Example envelope type for the transact server: the chain id and the payload enclosed. -/
abbrev ExampleEnvelope := String × Payload

/-- Example `Enclose`: it pairs the chain id with the payload and never returns nil. -/
def exampleEnclose (chainID : String) (pl : Payload) : Option ExampleEnvelope :=
  some (chainID, pl)

/-! # Theorems -/

/-! ## Frame of the write-view methods -/

theorem Op.apply_sameCommitted (ws : writeState) (op : Op) :
    (Op.apply ws op).sameCommitted ws := by
  unfold Op.apply
  cases op <;>
    simp only [Op.run, writeState.UpdateAccount, writeState.UpdateName, writeState.UpdateProposal,
      writeState.AddBlock, writeState.SetPower, writeState.setRaw, MutableForest.Writer] <;>
    cases ws.forest.fault <;>
    simp [writeState.sameCommitted, MutableForest.put, Ring.SetPower]

theorem foldl_apply_sameCommitted (ops : List Op) (ws : writeState) :
    (ops.foldl Op.apply ws).sameCommitted ws := by
  induction ops generalizing ws with
  | nil => simp [writeState.sameCommitted]
  | cons op ops ih =>
    have h1 := ih (Op.apply ws op)
    have h2 := Op.apply_sameCommitted ws op
    simp only [List.foldl_cons]
    unfold writeState.sameCommitted at *
    obtain ⟨a1, a2, a3, a4, a5, a6⟩ := h1
    obtain ⟨b1, b2, b3, b4, b5, b6⟩ := h2
    exact ⟨a1.trans b1, a2.trans b2, a3.trans b3, a4.trans b4, a5.trans b5, a6.trans b6⟩

theorem foldl_apply_Reader (ops : List Op) (ws : writeState) :
    (ops.foldl Op.apply ws).forest.Reader = ws.forest.Reader := by
  obtain ⟨h1, h2, -⟩ := foldl_apply_sameCommitted ops ws
  unfold MutableForest.Reader
  rw [h1, h2]

/-! ## C1: a failed Update -/

/-- C1 (as stated, refuted): on an empty state, an updater that upserts one new account and then
returns an error leaves the statistics counters changed: `AccountsWithoutCode` reads 0 before
the call and 1 after it, although `Update` returned the error. -/
theorem Update_failed_changes_stats :
    ((NewState db0).Update cfg0 (script [.UpdateAccount accA] (some "boom"))).1 =
      ([], 0, some "boom") ∧
    (NewState db0).GetAccountStats = ⟨0, 0⟩ ∧
    ((NewState db0).Update cfg0 (script [.UpdateAccount accA] (some "boom"))).2.GetAccountStats =
      ⟨0, 1⟩ := by
  decide

/-- C1 (amended): for every State and every updater that makes any calls on the write view and
then returns an error, `Update` returns that error with a nil hash and version 0, and afterwards
`Version()`, `Hash()` and every account, name and validator read return what they returned
before the call. -/
theorem Update_failed_reads_unchanged (cfg : Config) (s : State) (ops : List Op) (err : Error) :
    (s.Update cfg (script ops (some err))).1 = ([], 0, some err) ∧
    (s.Update cfg (script ops (some err))).2.Version = s.Version ∧
    (s.Update cfg (script ops (some err))).2.Hash = s.Hash ∧
    (∀ address, (s.Update cfg (script ops (some err))).2.ReadState.GetAccount address =
      s.ReadState.GetAccount address) ∧
    (∀ name, (s.Update cfg (script ops (some err))).2.ReadState.GetName name =
      s.ReadState.GetName name) ∧
    (∀ blocksAgo, (s.Update cfg (script ops (some err))).2.ReadState.Validators blocksAgo =
      s.ReadState.Validators blocksAgo) := by
  obtain ⟨-, h2, h3, -, h5, -⟩ := foldl_apply_sameCommitted ops s.writeState
  have hr := foldl_apply_Reader ops s.writeState
  simp only [State.Update, script, State.Version, State.Hash, MutableForest.Version,
    MutableForest.Hash, State.ReadState, ReadState.GetAccount, ReadState.GetName,
    ReadState.Validators, Ring.Validators, hr, h2, h3, h5]
  simp

/-! ## C2: the writes of a failed updater -/

/-- C2 (as stated, refuted): on an empty state, the account a failed updater upserted is
committed by the next successful `Update`: after the failed call followed by a successful call
of an updater that writes nothing, version 1 holds the account, whereas after the successful
call alone version 1 does not. -/
theorem Update_failed_writes_committed_later :
    ((NewState db0).Update cfg0 (script [.UpdateAccount accA] (some "boom"))).1 =
      ([], 0, some "boom") ∧
    ((((NewState db0).Update cfg0 (script [.UpdateAccount accA] (some "boom"))).2.Update cfg0
        (script [] none)).1.2 = (1, none) ∧
      (((NewState db0).Update cfg0 (script [.UpdateAccount accA] (some "boom"))).2.Update cfg0
        (script [] none)).2.ReadState.GetAccount [1] = some accA) ∧
    (((NewState db0).Update cfg0 (script [] none)).1.2 = (1, none) ∧
      ((NewState db0).Update cfg0 (script [] none)).2.ReadState.GetAccount [1] = none) := by
  decide

/-- C2 (amended): a failed `Update` persists nothing itself: the physical database, the write
buffer and the saved versions of the forest are what they were.  The writes of the failed
updater stay pending in the write view: the failed call followed by a successful `Update` returns
the same result and leaves the same state as one `Update` whose updater makes the calls of the
failed updater and then those of the successful one. -/
theorem Update_failed_writes_stay_pending (cfg : Config) (s : State) (fops gops : List Op)
    (err : Error) :
    (s.Update cfg (script fops (some err))).2.db = s.db ∧
    (s.Update cfg (script fops (some err))).2.cacheDB = s.cacheDB ∧
    (s.Update cfg (script fops (some err))).2.writeState.forest.saved =
      s.writeState.forest.saved ∧
    (s.Update cfg (script fops (some err))).2.Update cfg (script gops none) =
      s.Update cfg (script (fops ++ gops) none) := by
  obtain ⟨h1, -⟩ := foldl_apply_sameCommitted fops s.writeState
  simp [State.Update, script, h1, List.foldl_append]

/-! ## C3: versions of successful updates -/

theorem Update_success_inv (cfg : Config) (s : State)
    (updater : writeState → Option Error × writeState) (hash : Bytes) (version : Int)
    (s' : State) (h : s.Update cfg updater = ((hash, version, none), s')) :
    ∃ ws forest cacheDB, updater s.writeState = (none, ws) ∧
      ws.forest.Save cfg s.cacheDB = .ok (hash, version, forest, cacheDB) ∧
      version = ws.forest.version + 1 ∧ s'.Version = version ∧ s'.Hash = hash := by
  unfold State.Update at h
  split at h
  · simp at h
  · rename_i ws hu
    unfold State.commit at h
    split at h
    · simp at h
    · rename_i hash' version' forest cacheDB hsave
      simp only at h
      split at h
      · simp at h
      · rename_i ch fl ring hrot
        simp only [Prod.mk.injEq] at h
        obtain ⟨⟨rfl, rfl, -⟩, rfl⟩ := h
        refine ⟨ws, forest, cacheDB, hu, hsave, ?_⟩
        simp only [MutableForest.Save] at hsave
        split at hsave
        · simp at hsave
        · simp only [Except.ok.injEq, Prod.mk.injEq] at hsave
          obtain ⟨rfl, rfl, rfl, rfl⟩ := hsave
          simp [State.Version, State.Hash, MutableForest.Version, MutableForest.Hash,
            CacheDB.Commit]

theorem commit_healthy (cfg : Config) (s : State) (hf : s.writeState.forest.fault = none)
    (hr : cfg.ringInvariant s.writeState.ring.buckets s.writeState.ring.pending = none) :
    (State.commit cfg s).1 = (cfg.rootHash s.writeState.forest.working, s.Version + 1, none) ∧
    (State.commit cfg s).2.Version = s.Version + 1 ∧
    (State.commit cfg s).2.writeState.forest.fault = none := by
  simp [State.commit, MutableForest.Save, hf, Ring.Rotate, hr, State.Version,
    MutableForest.Version, CacheDB.Commit]

theorem commit_step (cfg : Config) (s : State) :
    ((State.commit cfg s).1.2.2 = none →
      (State.commit cfg s).1.2.1 = s.Version + 1 ∧
      (State.commit cfg s).2.Version = s.Version + 1) ∧
    ((State.commit cfg s).2.Version = s.Version ∨
      (State.commit cfg s).2.Version = s.Version + 1) := by
  cases hf : s.writeState.forest.fault with
  | some e => simp [State.commit, MutableForest.Save, hf]
  | none =>
    cases hr : cfg.ringInvariant s.writeState.ring.buckets s.writeState.ring.pending with
    | some e =>
      simp [State.commit, MutableForest.Save, hf, Ring.Rotate, hr, State.Version,
        MutableForest.Version]
    | none =>
      simp [State.commit, MutableForest.Save, hf, Ring.Rotate, hr, State.Version,
        MutableForest.Version, CacheDB.Commit]

theorem Update_script_step (cfg : Config) (s : State) (ops : List Op) (res : Option Error) :
    ((s.Update cfg (script ops res)).1.2.2 = none →
      (s.Update cfg (script ops res)).1.2.1 = s.Version + 1 ∧
      (s.Update cfg (script ops res)).2.Version = s.Version + 1) ∧
    ((s.Update cfg (script ops res)).2.Version = s.Version ∨
      (s.Update cfg (script ops res)).2.Version = s.Version + 1) := by
  obtain ⟨-, h2, -⟩ := foldl_apply_sameCommitted ops s.writeState
  have hV : State.Version { s with writeState := ops.foldl Op.apply s.writeState } =
      s.Version := by
    simp [State.Version, MutableForest.Version, h2]
  cases res with
  | some e =>
    have hU : s.Update cfg (script ops (some e)) =
        (([], 0, some e), { s with writeState := ops.foldl Op.apply s.writeState }) := by
      simp [State.Update, script]
    rw [hU]
    simp [hV]
  | none =>
    have hU : s.Update cfg (script ops none) =
        State.commit cfg { s with writeState := ops.foldl Op.apply s.writeState } := by
      simp [State.Update, script]
    rw [hU, ← hV]
    exact commit_step cfg _

theorem chain_lt_of_le (l : List Int) (a b : Int) (hab : a ≤ b)
    (h : List.Chain (fun previous next => previous < next) b l) :
    List.Chain (fun previous next => previous < next) a l := by
  cases h with
  | nil => exact List.Chain.nil
  | cons hbx hrest => exact List.Chain.cons (lt_of_le_of_lt hab hbx) hrest

theorem successVersions_increasing (cfg : Config) (us : List (List Op × Option Error))
    (s : State) :
    List.Chain (fun previous next => previous < next) s.Version
      (successVersions (s.Updates cfg (us.map (fun u => script u.1 u.2)))) := by
  induction us generalizing s with
  | nil => simp [State.Updates, successVersions]
  | cons u us ih =>
    obtain ⟨ops, res⟩ := u
    obtain ⟨h1, h2⟩ := Update_script_step cfg s ops res
    have ih' := ih (s.Update cfg (script ops res)).2
    simp only [List.map_cons, State.Updates]
    simp only [successVersions] at ih' ⊢
    rw [List.filter_cons]
    cases hres : (s.Update cfg (script ops res)).1.2.2 with
    | none =>
      obtain ⟨k1, k2⟩ := h1 hres
      rw [k2] at ih'
      simp only [Option.isNone_none, if_true, List.map_cons, k1]
      exact List.Chain.cons (by omega) ih'
    | some e =>
      simp only [Option.isNone_some, Bool.false_eq_true, if_false]
      refine chain_lt_of_le _ _ _ ?_ ih'
      rcases h2 with h | h <;> omega

theorem successVersions_consecutive (cfg : Config) (us : List (List Op × Option Error))
    (s : State)
    (hno : noTornCommit s.Version (s.Updates cfg (us.map (fun u => script u.1 u.2))) = true) :
    List.Chain (fun previous next => next = previous + 1) s.Version
      (successVersions (s.Updates cfg (us.map (fun u => script u.1 u.2)))) := by
  induction us generalizing s with
  | nil => simp [State.Updates, successVersions]
  | cons u us ih =>
    obtain ⟨ops, res⟩ := u
    obtain ⟨h1, -⟩ := Update_script_step cfg s ops res
    simp only [List.map_cons, State.Updates, noTornCommit, Bool.and_eq_true, Bool.or_eq_true,
      decide_eq_true_eq] at hno
    obtain ⟨hstep, hrest⟩ := hno
    have ih' := ih (s.Update cfg (script ops res)).2 hrest
    simp only [List.map_cons, State.Updates]
    simp only [successVersions] at ih' ⊢
    rw [List.filter_cons]
    cases hres : (s.Update cfg (script ops res)).1.2.2 with
    | none =>
      obtain ⟨k1, k2⟩ := h1 hres
      rw [k2] at ih'
      simp only [Option.isNone_none, if_true, List.map_cons, k1]
      exact List.Chain.cons rfl ih'
    | some e =>
      simp only [Option.isNone_some, Bool.false_eq_true, if_false]
      rw [hres] at hstep
      simp only [Option.isNone_some, Bool.false_eq_true, false_or] at hstep
      rw [hstep] at ih'
      exact ih'

/-- C3 (as stated, refuted): from the empty state, a successful update returns version 1; the
next update writes a validator power that violates the invariant of the ring, so its commit
saves version 2 and then fails at Rotate, returning an error with `Version()` at 2; the next
update corrects the power and succeeds with version 3, which is two, not one, greater than the
version returned by the previous successful commit. -/
theorem Update_version_gap_after_failed_Rotate :
    ((NewState db0).Updates cfg0
      ([([Op.UpdateAccount accA], none), ([Op.SetPower [7] 9223372036854775808], none),
        ([Op.SetPower [7] 10], none)].map (fun u => script u.1 u.2))).map
      (fun r => (r.1.2, r.2.Version)) =
      [((1, none), 1), ((0, some "validator power out of bounds"), 2), ((3, none), 3)] ∧
    successVersions ((NewState db0).Updates cfg0
      ([([Op.UpdateAccount accA], none), ([Op.SetPower [7] 9223372036854775808], none),
        ([Op.SetPower [7] 10], none)].map (fun u => script u.1 u.2))) = [1, 3] := by
  decide

/-- C3 (amended): for every State, (1) a successful `Update` returns a nil error with exactly the
hash and version that the forest's `Save` produced on the write view the updater left, and
immediately afterwards `Version()` and `Hash()` equal the returned version and hash; (2) when
the updater only makes write-view calls, the returned version is one greater than `Version()`
immediately before the call (no gap relative to the forest's counter); (3) over every sequence
of such `Update` calls the versions returned by the successful calls are strictly increasing
and above the initial `Version()`; (4) they increase by exactly one from each successful call
to the next, starting one above the initial `Version()`, when no failed call of the sequence
left the forest at another version than it found (no commit failed at Rotate after Save). -/
theorem Update_versions_monotonic (cfg : Config) (s : State) :
    (∀ updater hash version s', s.Update cfg updater = ((hash, version, none), s') →
      ∃ ws forest cacheDB, updater s.writeState = (none, ws) ∧
        ws.forest.Save cfg s.cacheDB = .ok (hash, version, forest, cacheDB) ∧
        s'.Version = version ∧ s'.Hash = hash) ∧
    (∀ ops hash version s', s.Update cfg (script ops none) = ((hash, version, none), s') →
      version = s.Version + 1) ∧
    (∀ us : List (List Op × Option Error),
      List.Chain (fun previous next => previous < next) s.Version
        (successVersions (s.Updates cfg (us.map (fun u => script u.1 u.2))))) ∧
    (∀ us : List (List Op × Option Error),
      noTornCommit s.Version (s.Updates cfg (us.map (fun u => script u.1 u.2))) = true →
      List.Chain (fun previous next => next = previous + 1) s.Version
        (successVersions (s.Updates cfg (us.map (fun u => script u.1 u.2))))) := by
  refine ⟨?_, ?_, ?_, ?_⟩
  · intro updater hash version s' h
    obtain ⟨ws, forest, cacheDB, h1, h2, -, h4, h5⟩ :=
      Update_success_inv cfg s updater hash version s' h
    exact ⟨ws, forest, cacheDB, h1, h2, h4, h5⟩
  · intro ops hash version s' h
    obtain ⟨ws, forest, cacheDB, h1, -, h3, -⟩ :=
      Update_success_inv cfg s (script ops none) hash version s' h
    obtain ⟨-, h2, -⟩ := foldl_apply_sameCommitted ops s.writeState
    simp only [script, Prod.mk.injEq, true_and] at h1
    subst h1
    rw [h3, h2]
    rfl
  · intro us
    exact successVersions_increasing cfg us s
  · intro us hno
    exact successVersions_consecutive cfg us s hno

/-- C3 (witness): from the empty state, a successful update, an update whose updater fails and
another successful one: no failed call moved the version, and the versions returned are 1 and
2; in the run with the failed rotation the versions 1 and 3 are still strictly increasing. -/
theorem Update_versions_monotonic_witness :
    successVersions ((NewState db0).Updates cfg0
      ([([Op.UpdateAccount accA], none), ([Op.UpdateAccount accC], some "boom"),
        ([], none)].map (fun u => script u.1 u.2))) = [1, 2] ∧
    List.Chain (fun previous next => next = previous + 1) (NewState db0).Version
      (successVersions ((NewState db0).Updates cfg0
        ([([Op.UpdateAccount accA], none), ([Op.UpdateAccount accC], some "boom"),
          ([], none)].map (fun u => script u.1 u.2)))) ∧
    List.Chain (fun previous next => previous < next) (NewState db0).Version
      (successVersions ((NewState db0).Updates cfg0
        ([([Op.UpdateAccount accA], none), ([Op.SetPower [7] 9223372036854775808], none),
          ([Op.SetPower [7] 10], none)].map (fun u => script u.1 u.2)))) :=
  ⟨by decide,
    (Update_versions_monotonic cfg0 (NewState db0)).2.2.2 _ (by decide),
    (Update_versions_monotonic cfg0 (NewState db0)).2.2.1 _⟩

/-! ## C4: order of the commit steps -/

/-- C4: `commit` runs Save, then Rotate, then the flush.  (1) If Save fails, `commit` returns
that error with a nil hash and version 0 and the state is unchanged (no rotation, no flush).
(2) If Save succeeds and Rotate fails, `commit` returns Rotate's error with a nil hash and
version 0; the forest is the saved one, its version the new version, one above the old; the
ring and the physical database are unchanged and the writes of Save are still in the write
buffer.  (3) If both succeed, `commit` returns Save's hash and version with a nil error, the
ring is the rotated one, the write buffer is empty and the physical database holds the new
version. -/
theorem commit_order (cfg : Config) (s : State) :
    (∀ err, s.writeState.forest.Save cfg s.cacheDB = .error err →
      State.commit cfg s = (([], 0, some err), s)) ∧
    (∀ hash version forest cacheDB err,
      s.writeState.forest.Save cfg s.cacheDB = .ok (hash, version, forest, cacheDB) →
      s.writeState.ring.Rotate cfg = .error err →
      (State.commit cfg s).1 = ([], 0, some err) ∧
      (State.commit cfg s).2.writeState.forest = forest ∧
      (State.commit cfg s).2.Version = version ∧ version = s.Version + 1 ∧
      (State.commit cfg s).2.writeState.ring = s.writeState.ring ∧
      (State.commit cfg s).2.db = s.db ∧
      (State.commit cfg s).2.cacheDB = cacheDB ∧
      cacheDB.writes.lookup version = some s.writeState.forest.working) ∧
    (∀ hash version forest cacheDB totalPowerChange totalFlow ring,
      s.writeState.forest.Save cfg s.cacheDB = .ok (hash, version, forest, cacheDB) →
      s.writeState.ring.Rotate cfg = .ok (totalPowerChange, totalFlow, ring) →
      (State.commit cfg s).1 = (hash, version, none) ∧
      (State.commit cfg s).2.writeState.forest = forest ∧
      (State.commit cfg s).2.writeState.ring = ring ∧
      (State.commit cfg s).2.cacheDB.writes = ∅ ∧
      (State.commit cfg s).2.db.versions.lookup version = some s.writeState.forest.working) := by
  refine ⟨?_, ?_, ?_⟩
  · intro err h
    simp [State.commit, h]
  · intro hash version forest cacheDB err hs hr
    simp only [State.commit, hs, hr, true_and]
    simp only [MutableForest.Save] at hs
    split at hs
    · simp at hs
    · simp only [Except.ok.injEq, Prod.mk.injEq] at hs
      obtain ⟨rfl, rfl, rfl, rfl⟩ := hs
      simp [State.Version, MutableForest.Version]
  · intro hash version forest cacheDB totalPowerChange totalFlow ring hs hr
    simp only [State.commit, hs, hr, true_and]
    simp only [MutableForest.Save] at hs
    split at hs
    · simp at hs
    · simp only [Except.ok.injEq, Prod.mk.injEq] at hs
      obtain ⟨rfl, rfl, rfl, rfl⟩ := hs
      simp [CacheDB.Commit, Batch.WriteSync, DB.NewBatch]

/-- C4 (witness): the three cases at concrete states: a state over a failing database, a state
whose ring fails to rotate (a pending validator power violates its invariant), and the healthy
empty state. -/
theorem commit_order_witness :
    State.commit cfg0 (NewState dbFaulty) = (([], 0, some "disk failure"), NewState dbFaulty) ∧
    ((State.commit cfg0 ringFaulty).1 = ([], 0, some "validator power out of bounds") ∧
      (State.commit cfg0 ringFaulty).2.Version = 1 ∧
      (State.commit cfg0 ringFaulty).2.db = ringFaulty.db) ∧
    ((State.commit cfg0 (NewState db0)).1 = ([], 1, none) ∧
      (State.commit cfg0 (NewState db0)).2.db.versions.lookup 1 = some ∅) :=
  ⟨(commit_order cfg0 (NewState dbFaulty)).1 "disk failure" rfl,
    have h := (commit_order cfg0 ringFaulty).2.1 _ _ _ _ "validator power out of bounds" rfl rfl
    ⟨h.1, h.2.2.1, h.2.2.2.2.2.1⟩,
    have h := (commit_order cfg0 (NewState db0)).2.2 _ _ _ _ _ _ _ rfl rfl
    ⟨h.1, h.2.2.2.2⟩⟩

/-! ## C5: version of the genesis state -/

theorem commit_success_inv (cfg : Config) (s s' : State) (hash : Bytes) (version : Int)
    (h : State.commit cfg s = ((hash, version, none), s')) :
    s'.Version = version ∧ s'.Hash = hash ∧ version = s.Version + 1 ∧
    s.writeState.forest.fault = none ∧
    s'.writeState.forest.Reader = s.writeState.forest.working := by
  unfold State.commit at h
  split at h
  · simp at h
  · rename_i hash' version' forest cacheDB hsave
    simp only at h
    split at h
    · simp at h
    · rename_i change flow ring hrot
      simp only [Prod.mk.injEq] at h
      obtain ⟨⟨rfl, rfl, -⟩, rfl⟩ := h
      simp only [MutableForest.Save] at hsave
      split at hsave
      · simp at hsave
      · rename_i hf
        simp only [Except.ok.injEq, Prod.mk.injEq] at hsave
        obtain ⟨rfl, rfl, rfl, rfl⟩ := hsave
        simp [State.Version, State.Hash, MutableForest.Version, MutableForest.Hash,
          CacheDB.Commit, MutableForest.Reader, hf]

theorem foldlM_fault {α : Type} (step : writeState → α → Except Error writeState) (err : Error)
    (hstep : ∀ ws x, ws.forest.fault = some err → step ws x = .error err)
    (x : α) (xs : List α) (ws : writeState) (hf : ws.forest.fault = some err) :
    (x :: xs).foldlM step ws = .error err := by
  simp only [List.foldlM_cons, hstep ws x hf]
  rfl

theorem UpdateAccount_version (ws ws' : writeState) (account : Account)
    (h : ws.UpdateAccount account = .ok ws') : ws'.forest.version = ws.forest.version := by
  simp only [writeState.UpdateAccount, MutableForest.Writer] at h
  cases hf : ws.forest.fault with
  | some e => simp [hf] at h
  | none =>
    simp only [hf, Except.ok.injEq] at h
    subst h
    rfl

theorem SetPower_version (ws ws' : writeState) (id : Bytes) (power : Nat)
    (h : ws.SetPower id power = .ok ws') : ws'.forest.version = ws.forest.version := by
  simp only [writeState.SetPower, MutableForest.Writer] at h
  cases hf : ws.forest.fault with
  | some e => simp [hf] at h
  | none =>
    simp only [hf, Except.ok.injEq] at h
    subst h
    rfl

theorem foldlM_version {α : Type} (step : writeState → α → Except Error writeState)
    (hstep : ∀ ws x ws', step ws x = .ok ws' → ws'.forest.version = ws.forest.version)
    (xs : List α) (ws ws' : writeState) (h : xs.foldlM step ws = .ok ws') :
    ws'.forest.version = ws.forest.version := by
  induction xs generalizing ws with
  | nil =>
    simp only [List.foldlM_nil, pure, Except.pure, Except.ok.injEq] at h
    subst h
    rfl
  | cons x xs ih =>
    simp only [List.foldlM_cons] at h
    cases h1 : step ws x with
    | error e => rw [h1] at h; simp [bind, Except.bind] at h
    | ok ws1 =>
      rw [h1] at h
      simp only [bind, Except.bind] at h
      rw [ih ws1 h, hstep ws x ws1 h1]

theorem MakeGenesisState_fault (cfg : Config) (db : DB) (genesisDoc : GenesisDoc) (err : Error)
    (hf : db.fault = some err) :
    MakeGenesisState cfg db genesisDoc = .error ("MakeGenesisState():" ++ " " ++ err) := by
  have h0 : (NewState db).writeState.forest.fault = some err := by
    simpa [NewState, NewMutableForest] using hf
  have hU : ∀ (ws : writeState) (a : Account), ws.forest.fault = some err →
      ws.UpdateAccount a = .error err := by
    intro ws a h
    simp [writeState.UpdateAccount, MutableForest.Writer, h]
  have hS : ∀ (ws : writeState) (gv : GenesisValidator), ws.forest.fault = some err →
      ws.SetPower gv.PublicKey gv.Amount = .error err := by
    intro ws gv h
    simp [writeState.SetPower, MutableForest.Writer, h]
  unfold MakeGenesisState
  cases hacc : genesisDoc.Accounts with
  | cons a as =>
    simp only [foldlM_fault (fun ws (genAcc : GenesisAccount) =>
      ws.UpdateAccount (genesisAccount genAcc)) err (fun ws x h => hU ws _ h) a as _ h0]
  | nil =>
    simp only [List.foldlM_nil, pure, Except.pure, writeState.MakeGenesisValidators]
    cases hval : genesisDoc.Validators with
    | cons v vs =>
      simp only [foldlM_fault (fun ws (gv : GenesisValidator) =>
        ws.SetPower gv.PublicKey gv.Amount) err hS v vs _ h0]
    | nil =>
      simp only [List.foldlM_nil, pure, Except.pure, hU _ _ h0]

theorem MakeGenesisState_ok_inv (cfg : Config) (db : DB) (genesisDoc : GenesisDoc) (s : State)
    (h : MakeGenesisState cfg db genesisDoc = .ok s) :
    ∃ ws3 hash, State.commit cfg { NewState db with writeState := ws3 } =
      ((hash, cfg.VersionOffset, none), s) := by
  unfold MakeGenesisState at h
  simp only at h
  split at h
  · simp at h
  · split at h
    · simp at h
    · split at h
      · simp at h
      · rename_i ws3 h3
        split at h
        · simp at h
        · rename_i hash version s1 hc
          split at h
          · simp at h
          · rename_i hv
            simp only [Except.ok.injEq] at h
            subst h
            have hv' : version = cfg.VersionOffset := by simpa using hv
            subst hv'
            exact ⟨ws3, hash, hc⟩

/-- C5: `MakeGenesisState` returns a State only past all of its checks.  (1) Whenever it returns
a State, that State's `Version()` equals `VersionOffset`.  (2) If the upsert of any genesis
account fails (the upserts before it having succeeded), it returns that error under the header
and no State.  (3) If the account upserts succeed, then: if the validator initialisation fails
it returns that error under the header; else if the upsert of the global-permissions account
fails it returns that error under the header; else if the commit returns an error it returns
"could not save genesis state" with that error; else the commit produced version 1, and it
returns the version-mismatch error when that version differs from `VersionOffset`, and the
committed State when it equals `VersionOffset`.  (4) When the storage of the database fails,
it returns the storage error under the header. -/
theorem MakeGenesisState_version (cfg : Config) (db : DB) (genesisDoc : GenesisDoc) :
    (∀ s, MakeGenesisState cfg db genesisDoc = .ok s → s.Version = cfg.VersionOffset) ∧
    (∀ pre genAcc post ws err, genesisDoc.Accounts = pre ++ genAcc :: post →
      pre.foldlM (fun ws genAcc => ws.UpdateAccount (genesisAccount genAcc))
        (NewState db).writeState = .ok ws →
      ws.UpdateAccount (genesisAccount genAcc) = .error err →
      MakeGenesisState cfg db genesisDoc = .error ("MakeGenesisState():" ++ " " ++ err)) ∧
    (∀ ws1, genesisDoc.Accounts.foldlM
        (fun ws genAcc => ws.UpdateAccount (genesisAccount genAcc))
        (NewState db).writeState = .ok ws1 →
      (∀ err, ws1.MakeGenesisValidators genesisDoc = .error err →
        MakeGenesisState cfg db genesisDoc = .error ("MakeGenesisState():" ++ " " ++ err)) ∧
      (∀ ws2, ws1.MakeGenesisValidators genesisDoc = .ok ws2 →
        (∀ err, ws2.UpdateAccount (permsAccount cfg genesisDoc) = .error err →
          MakeGenesisState cfg db genesisDoc =
            .error ("MakeGenesisState():" ++ " " ++ err)) ∧
        (∀ ws3, ws2.UpdateAccount (permsAccount cfg genesisDoc) = .ok ws3 →
          (∀ hash version err s,
            State.commit cfg { NewState db with writeState := ws3 } =
              ((hash, version, some err), s) →
            MakeGenesisState cfg db genesisDoc =
              .error ("MakeGenesisState():" ++ " could not save genesis state: " ++ err)) ∧
          (∀ hash version s,
            State.commit cfg { NewState db with writeState := ws3 } =
              ((hash, version, none), s) →
            version = 1 ∧
            (version ≠ cfg.VersionOffset →
              MakeGenesisState cfg db genesisDoc =
                .error ("MakeGenesisState():" ++ " got version " ++ toString version ++
                  " after committing genesis state but version offset should be " ++
                  toString cfg.VersionOffset)) ∧
            (version = cfg.VersionOffset →
              MakeGenesisState cfg db genesisDoc = .ok s))))) ∧
    (∀ err, db.fault = some err →
      MakeGenesisState cfg db genesisDoc = .error ("MakeGenesisState():" ++ " " ++ err)) := by
  refine ⟨?_, ?_, ?_, ?_⟩
  · intro s h
    obtain ⟨ws3, hash, hc⟩ := MakeGenesisState_ok_inv cfg db genesisDoc s h
    exact (commit_success_inv cfg _ _ _ _ hc).1
  · intro pre genAcc post ws err hsplit hpre herr
    have hfold : genesisDoc.Accounts.foldlM
        (fun ws genAcc => ws.UpdateAccount (genesisAccount genAcc))
        (NewState db).writeState = .error err := by
      rw [hsplit, List.foldlM_append, hpre]
      simp only [bind, Except.bind, List.foldlM_cons, herr]
    simp only [MakeGenesisState, hfold]
  · intro ws1 h1
    refine ⟨?_, ?_⟩
    · intro err h2
      simp only [MakeGenesisState, h1, h2]
    · intro ws2 h2
      refine ⟨?_, ?_⟩
      · intro err h3
        simp only [MakeGenesisState, h1, h2, h3]
      · intro ws3 h3
        refine ⟨?_, ?_⟩
        · intro hash version err s hc
          simp only [MakeGenesisState, h1, h2, h3, hc]
        · intro hash version s hc
          refine ⟨?_, ?_, ?_⟩
          · rw [(commit_success_inv cfg _ _ _ _ hc).2.2.1]
            have v3 := UpdateAccount_version ws2 ws3 _ h3
            have v2 := foldlM_version
              (fun ws (gv : GenesisValidator) => ws.SetPower gv.PublicKey gv.Amount)
              (fun ws x ws' h => SetPower_version ws ws' _ _ h) genesisDoc.Validators ws1 ws2 h2
            have v1 := foldlM_version
              (fun ws (genAcc : GenesisAccount) => ws.UpdateAccount (genesisAccount genAcc))
              (fun ws x ws' h => UpdateAccount_version ws ws' _ h) genesisDoc.Accounts
              (NewState db).writeState ws1 h1
            simp only [State.Version, MutableForest.Version, v3, v2, v1]
            simp [NewState, NewMutableForest]
          · intro hv
            simp only [MakeGenesisState, h1, h2, h3, hc, ne_eq, hv, not_false_eq_true, if_true]
          · intro hv
            simp only [MakeGenesisState, h1, h2, h3, hc, ne_eq, hv, not_true_eq_false, if_false]
  · intro err hf
    exact MakeGenesisState_fault cfg db genesisDoc err hf

/-- C5 (witness): each case at a concrete input.  On the failing database the account upsert
fails for a document with an account, the validator initialisation for a document with only a
validator, the global-permissions upsert for the empty document.  On the healthy database the
commit fails at Rotate for a document whose validator power violates the invariant of the
ring; with `VersionOffset` 2 the committed version 1 is a mismatch; with `VersionOffset` 1 the
State is returned. -/
theorem MakeGenesisState_version_witness :
    MakeGenesisState cfg0 dbFaulty docOne = .error "MakeGenesisState(): disk failure" ∧
    MakeGenesisState cfg0 dbFaulty docValidator = .error "MakeGenesisState(): disk failure" ∧
    MakeGenesisState cfg0 dbFaulty docEmpty = .error "MakeGenesisState(): disk failure" ∧
    MakeGenesisState cfg0 db0 docHeavy =
      .error ("MakeGenesisState(): could not save genesis state: " ++
        "validator power out of bounds") ∧
    MakeGenesisState { cfg0 with VersionOffset := 2 } db0 docOne =
      .error ("MakeGenesisState(): got version 1 after committing genesis state but " ++
        "version offset should be 2") ∧
    (MakeGenesisState cfg0 db0 docOne).toOption.map (fun s => s.Version) = some 1 :=
  ⟨(MakeGenesisState_version cfg0 dbFaulty docOne).2.1 [] ⟨[1], 100, ⟨⟨0, 0⟩, []⟩⟩ []
      (NewState dbFaulty).writeState "disk failure" rfl rfl rfl,
    ((MakeGenesisState_version cfg0 dbFaulty docValidator).2.2.1
      (NewState dbFaulty).writeState rfl).1 "disk failure" rfl,
    (((MakeGenesisState_version cfg0 dbFaulty docEmpty).2.2.1
      (NewState dbFaulty).writeState rfl).2 (NewState dbFaulty).writeState rfl).1
      "disk failure" rfl,
    ((((MakeGenesisState_version cfg0 db0 docHeavy).2.2.1 _ rfl).2 _ rfl).2 _ rfl).1 _ _
      "validator power out of bounds" _ rfl,
    (((((MakeGenesisState_version { cfg0 with VersionOffset := 2 } db0 docOne).2.2.1
      _ rfl).2 _ rfl).2 _ rfl).2 _ _ _ rfl).2.1 (by decide),
    by
      rw [(((((MakeGenesisState_version cfg0 db0 docOne).2.2.1
        _ rfl).2 _ rfl).2 _ rfl).2 _ _ _ rfl).2.2 rfl]
      decide⟩

/-! ## C6: Copy -/

/-- C6 (code evaluated at the failing input): the source state holds account `accA` at its last
commit and its storage fails when the forest is iterated; `IterateRWTree` returns the error,
yet `Copy` returns a State without error, at version 1, that does not hold the account. -/
theorem Copy_drops_iteration_error :
    sourceFailing.ReadState.GetAccount [1] = some accA ∧
    (sourceFailing.writeState.forest.IterateRWTree copyTree
      (NewState db0).writeState.forest).1 = some "disk failure" ∧
    (sourceFailing.Copy cfg0 db0).toOption.map
      (fun stateCopy => (stateCopy.Version, stateCopy.ReadState.GetAccount [1])) =
      some (1, none) := by
  decide

theorem iterate_insert (es : List (Sigma (fun _ : Bytes => Value))) (t0 : Tree) :
    iterate (fun (e : Sigma (fun _ : Bytes => Value)) (t : Tree) =>
        ((none : Option Error), t.insert e.1 e.2)) es t0 =
      (none, es.foldl (fun t e => t.insert e.1 e.2) t0) := by
  induction es generalizing t0 with
  | nil => rfl
  | cons e es ih => simp only [iterate, List.foldl_cons, ih]

theorem lookup_foldl_insert (es : List (Sigma (fun _ : Bytes => Value))) (hnd : es.NodupKeys)
    (t0 : Tree) (k : Bytes) :
    (es.foldl (fun t e => t.insert e.1 e.2) t0).lookup k =
      match List.dlookup k es with
      | some v => some v
      | none => t0.lookup k := by
  induction es generalizing t0 with
  | nil => simp
  | cons e es ih =>
    obtain ⟨k', v'⟩ := e
    rw [List.nodupKeys_cons] at hnd
    simp only [List.foldl_cons]
    rw [ih hnd.2]
    by_cases hk : k = k'
    · subst hk
      have hnone : List.dlookup k es = none := List.dlookup_eq_none.mpr hnd.1
      simp [hnone, List.dlookup_cons_eq]
    · rw [List.dlookup_cons_ne es ⟨k', v'⟩ hk, AList.lookup_insert_ne hk]

theorem copyTree_get (name : Bytes) (tree : Tree) (f : MutableForest) (hf : f.fault = none) :
    ∃ f', copyTree name tree f = (none, f') ∧ f'.fault = none ∧ f'.saved = f.saved ∧
      f'.version = f.version ∧
      ∀ n key, f'.working.get n key =
        if n = name then
          match tree.lookup key with
          | some v => some v
          | none => f.working.get n key
        else f.working.get n key := by
  refine ⟨f.put name (tree.entries.foldl (fun t e => t.insert e.1 e.2)
    ((f.working.lookup name).getD ∅)), ?_, ?_, ?_, ?_, ?_⟩
  · simp only [copyTree, MutableForest.Writer, hf, IterateWriteTree, iterate_insert]
  · simpa [MutableForest.put] using hf
  · simp [MutableForest.put]
  · simp [MutableForest.put]
  · intro n key
    by_cases hn : n = name
    · subst hn
      simp only [MutableForest.put, Snapshot.get, AList.lookup_insert, if_true]
      rw [lookup_foldl_insert _ tree.nodupKeys]
      have : List.dlookup key tree.entries = tree.lookup key := rfl
      rw [this]
      cases tree.lookup key with
      | some v => rfl
      | none => cases f.working.lookup n <;> simp
    · simp [MutableForest.put, Snapshot.get, AList.lookup_insert_ne hn, hn]

theorem iterate_copyTree (es : List (Sigma (fun _ : Bytes => Tree))) (hnd : es.NodupKeys)
    (f : MutableForest) (hf : f.fault = none) :
    ∃ f', iterate (fun (e : Sigma (fun _ : Bytes => Tree)) => copyTree e.1 e.2) es f =
        (none, f') ∧
      f'.fault = none ∧ f'.saved = f.saved ∧ f'.version = f.version ∧
      ∀ n key, f'.working.get n key =
        match List.dlookup n es with
        | some tree =>
          (match tree.lookup key with
          | some v => some v
          | none => f.working.get n key)
        | none => f.working.get n key := by
  induction es generalizing f with
  | nil => exact ⟨f, rfl, hf, rfl, rfl, by simp⟩
  | cons e es ih =>
    obtain ⟨name, tree⟩ := e
    rw [List.nodupKeys_cons] at hnd
    obtain ⟨f1, h1, hf1, hs1, hv1, hg1⟩ := copyTree_get name tree f hf
    obtain ⟨f2, h2, hf2, hs2, hv2, hg2⟩ := ih hnd.2 f1 hf1
    refine ⟨f2, ?_, hf2, hs2.trans hs1, hv2.trans hv1, ?_⟩
    · simp only [iterate, h1]
      exact h2
    · intro n key
      rw [hg2, hg1]
      by_cases hn : n = name
      · subst hn
        have hnone : List.dlookup n es = none := List.dlookup_eq_none.mpr hnd.1
        simp [hnone, List.dlookup_cons_eq]
      · rw [List.dlookup_cons_ne es ⟨name, tree⟩ hn]
        simp [hn]

/-- Copy without failures: when neither the storage of the source nor the target database
fails and the empty ring of the copy passes the invariant, `Copy` returns a State in which
every key of every tree reads as in the source at its last commit, and no other key is
present. -/
theorem Copy_healthy_fidelity (cfg : Config) (s : State) (db : DB)
    (hs : s.writeState.forest.fault = none) (hd : db.fault = none)
    (hr : cfg.ringInvariant [] ∅ = none) :
    ∃ stateCopy, s.Copy cfg db = .ok stateCopy ∧
      ∀ tree key, stateCopy.ReadState.Forest.get tree key = s.ReadState.Forest.get tree key := by
  have h0 : (NewState db).writeState.forest.fault = none := by
    simpa [NewState, NewMutableForest] using hd
  obtain ⟨f', hit, hf', -, -, hget⟩ :=
    iterate_copyTree s.writeState.forest.Reader.entries s.writeState.forest.Reader.nodupKeys
      (NewState db).writeState.forest h0
  have hcopy : s.writeState.forest.IterateRWTree copyTree (NewState db).writeState.forest =
      (none, f') := by
    simp only [MutableForest.IterateRWTree, hs]
    exact hit
  obtain ⟨k1, -⟩ := commit_healthy cfg
    { NewState db with writeState := { (NewState db).writeState with forest := f' } } hf'
    (by simpa [NewState, NewRing] using hr)
  have hc : State.commit cfg
      { NewState db with writeState := { (NewState db).writeState with forest := f' } } =
      ((cfg.rootHash f'.working, State.Version
          { NewState db with writeState := { (NewState db).writeState with forest := f' } } + 1,
          none),
        (State.commit cfg
          { NewState db with writeState := { (NewState db).writeState with forest := f' } }).2) :=
    Prod.ext k1 rfl
  refine ⟨(State.commit cfg
    { NewState db with writeState := { (NewState db).writeState with forest := f' } }).2,
    ?_, ?_⟩
  · simp only [State.Copy, hcopy]
    rw [hc]
  · intro tree key
    have hr := (commit_success_inv cfg _ _ _ _ hc).2.2.2.2
    simp only [State.ReadState, hr]
    rw [hget]
    have hd0 : (NewState db).writeState.forest.working.get tree key = none := by
      simp [NewState, NewMutableForest, Snapshot.get]
    have hl : List.dlookup tree s.writeState.forest.Reader.entries =
        s.writeState.forest.Reader.lookup tree := rfl
    rw [hl, hd0]
    simp only [Snapshot.get]
    cases s.writeState.forest.Reader.lookup tree with
    | none => rfl
    | some t =>
      simp only
      cases t.lookup key <;> rfl

/-! ## C7: statistics rebuilt by LoadState -/

theorem iterate_count (entries : List (Sigma (fun _ : Bytes => Value))) (st stats : AccountStats)
    (h : iterate (fun (e : Sigma (fun _ : Bytes => Value)) (st : AccountStats) =>
        match e.2 with
        | .account acc =>
          if acc.Code.length > 0 then
            ((none : Option Error), { st with AccountsWithCode := st.AccountsWithCode + 1 })
          else
            (none, { st with AccountsWithoutCode := st.AccountsWithoutCode + 1 })
        | _ => (some "could not decode account", st)) entries st = (none, stats)) :
    ∃ accounts : List Account, entries.map (fun e => e.2) = accounts.map Value.account ∧
      stats.AccountsWithCode = st.AccountsWithCode + accounts.countP (fun a => a.Code ≠ []) ∧
      stats.AccountsWithoutCode =
        st.AccountsWithoutCode + accounts.countP (fun a => a.Code = []) := by
  induction entries generalizing st with
  | nil =>
    simp only [iterate, Prod.mk.injEq, true_and] at h
    subst h
    exact ⟨[], by simp⟩
  | cons e es ih =>
    obtain ⟨k, v⟩ := e
    cases v with
    | account acc =>
      simp only [iterate] at h
      by_cases hc : acc.Code.length > 0
      · simp only [hc, if_true] at h
        obtain ⟨accounts, h1, h2, h3⟩ := ih _ h
        refine ⟨acc :: accounts, by simp [h1], ?_, ?_⟩
        · have : acc.Code ≠ [] := by intro h0; simp [h0] at hc
          simp [h2, List.countP_cons, this]; omega
        · have : acc.Code ≠ [] := by intro h0; simp [h0] at hc
          simp [h3, List.countP_cons, this]
      · simp only [hc, if_false] at h
        obtain ⟨accounts, h1, h2, h3⟩ := ih _ h
        have h0 : acc.Code = [] := by
          cases hcode : acc.Code with
          | nil => rfl
          | cons _ _ => simp [hcode] at hc
        refine ⟨acc :: accounts, by simp [h1], ?_, ?_⟩
        · simp [h2, List.countP_cons, h0]
        · simp [h3, List.countP_cons, h0]; omega
    | power p => simp [iterate] at h
    | raw b => simp [iterate] at h

/-- LoadState of a version the database does not hold returns the wrapped error of Load; the
source comment "returns nil with no error if no state found" does not describe the code. -/
theorem LoadState_missing_version (cfg : Config) (db : DB) (version : Int)
    (hf : db.fault = none) (hv : db.versions.lookup version = none) :
    LoadState cfg db version =
      .error ("could not load MutableForest at version " ++ toString version ++ ": " ++
        "version does not exist") := by
  simp [LoadState, MutableForest.Load, NewState, NewMutableForest, hf, hv]

/-- C7: whenever `LoadState(db, version)` returns a State, the database holds a snapshot at that
version, every record of its accounts tree is an account, and on the returned State
`AccountsWithCode` is the number of those accounts with non-empty code, `AccountsWithoutCode`
the number with empty code, and their sum the number of accounts at that version. -/
theorem LoadState_stats (cfg : Config) (db : DB) (version : Int) (s : State)
    (h : LoadState cfg db version = .ok s) :
    ∃ (snap : Snapshot) (accounts : List Account), db.versions.lookup version = some snap ∧
      ((snap.lookup accountTree).getD ∅).entries.map (fun e => e.2) =
        accounts.map Value.account ∧
      s.GetAccountStats.AccountsWithCode = accounts.countP (fun a => a.Code ≠ []) ∧
      s.GetAccountStats.AccountsWithoutCode = accounts.countP (fun a => a.Code = []) ∧
      s.GetAccountStats.AccountsWithCode + s.GetAccountStats.AccountsWithoutCode =
        accounts.length := by
  unfold LoadState at h
  cases hload : (NewState db).writeState.forest.Load cfg version with
  | error e => simp [hload] at h
  | ok forest =>
    simp only [hload] at h
    simp only [MutableForest.Load] at hload
    split at hload
    · simp at hload
    · split at hload
      · simp at hload
      · rename_i snap hsnap
        simp only [Except.ok.injEq] at hload
        subst hload
        split at h
        · simp at h
        · rename_i stats hit
          split at h
          · simp at h
          · simp only [Except.ok.injEq] at h
            subst h
            simp only [State.ReadState, MutableForest.Reader, NewState, NewMutableForest] at hit
            simp only [NewState, NewMutableForest] at hsnap
            rw [hsnap] at hit
            simp only [Option.getD_some, ReadState.IterateAccounts] at hit
            obtain ⟨accounts, h1, h2, h3⟩ := iterate_count _ _ _ hit
            refine ⟨snap, accounts, hsnap, h1, ?_, ?_, ?_⟩
            · simpa [State.GetAccountStats] using h2
            · simpa [State.GetAccountStats] using h3
            · simp only [State.GetAccountStats, h2, h3, Nat.zero_add]
              have hsum : ∀ l : List Account,
                  l.countP (fun a => a.Code ≠ []) + l.countP (fun a => a.Code = []) =
                    l.length := by
                intro l
                induction l with
                | nil => simp
                | cons a l ih =>
                  rw [List.countP_cons, List.countP_cons, List.length_cons]
                  by_cases ha : a.Code = []
                  · rw [if_neg (by simp [ha]), if_pos (by simp [ha])]
                    omega
                  · rw [if_pos (by simp [ha]), if_neg (by simp [ha])]
                    omega
              exact hsum accounts

/-- C7 (witness): loading version 1 of the example database, which holds one account with code
and one without, succeeds and counts one account of each kind. -/
theorem LoadState_stats_witness :
    LoadState cfg0 db1 1 = .ok loaded1 ∧
    loaded1.GetAccountStats = ⟨1, 1⟩ ∧
    ∃ (snap : Snapshot) (accounts : List Account), db1.versions.lookup 1 = some snap ∧
      ((snap.lookup accountTree).getD ∅).entries.map (fun e => e.2) =
        accounts.map Value.account ∧
      loaded1.GetAccountStats.AccountsWithCode = accounts.countP (fun a => a.Code ≠ []) ∧
      loaded1.GetAccountStats.AccountsWithoutCode = accounts.countP (fun a => a.Code = []) ∧
      loaded1.GetAccountStats.AccountsWithCode + loaded1.GetAccountStats.AccountsWithoutCode =
        accounts.length :=
  ⟨rfl, by decide, LoadState_stats cfg0 db1 1 loaded1 rfl⟩

/-! ## C8: historical reads -/

theorem commit_success_saved (cfg : Config) (s s' : State) (hash : Bytes) (version : Int)
    (h : State.commit cfg s = ((hash, version, none), s')) :
    s'.writeState.forest.saved =
      s.writeState.forest.saved.insert version s.writeState.forest.working ∧
    s'.writeState.forest.fault = s.writeState.forest.fault := by
  unfold State.commit at h
  split at h
  · simp at h
  · rename_i hash' version' forest cacheDB hsave
    simp only at h
    split at h
    · simp at h
    · simp only [Prod.mk.injEq] at h
      obtain ⟨⟨rfl, rfl, -⟩, rfl⟩ := h
      simp only [MutableForest.Save] at hsave
      split at hsave
      · simp at hsave
      · simp only [Except.ok.injEq, Prod.mk.injEq] at hsave
        obtain ⟨rfl, rfl, rfl, rfl⟩ := hsave
        simp

theorem Update_script_GetImmutable (cfg : Config) (s s' : State) (ops : List Op) (hash : Bytes)
    (version : Int) (h : s.Update cfg (script ops none) = ((hash, version, none), s')) :
    version = s.Version + 1 ∧
    ∀ v, v ≠ version →
      s'.writeState.forest.GetImmutable v = s.writeState.forest.GetImmutable v := by
  obtain ⟨c1, -, -, c4, -⟩ := foldl_apply_sameCommitted ops s.writeState
  have hc : State.commit cfg { s with writeState := ops.foldl Op.apply s.writeState } =
      ((hash, version, none), s') := by
    simpa [State.Update, script] using h
  obtain ⟨h1, h2⟩ := commit_success_saved cfg _ _ _ _ hc
  obtain ⟨-, -, h3, -⟩ := commit_success_inv cfg _ _ _ _ hc
  obtain ⟨-, c2, -⟩ := foldl_apply_sameCommitted ops s.writeState
  refine ⟨?_, ?_⟩
  · rw [h3]
    simp [State.Version, MutableForest.Version, c2]
  · intro v hv
    simp only [MutableForest.GetImmutable, h1, h2, c1, c4]
    rw [AList.lookup_insert_ne hv]

theorem loadBuckets_congr (g g' : Int → Except Error Snapshot) (first : Int) (n : Nat)
    (version : Int) (h : ∀ v, v ≤ version → g v = g' v) :
    loadBuckets g first n version = loadBuckets g' first n version := by
  induction n generalizing version with
  | zero => rfl
  | succ n ih =>
    simp only [loadBuckets]
    rw [h version (le_refl _), ih (version - 1) (fun v hv => h v (by omega))]

theorem wrapInt64_eq_iff (x : Int) :
    wrapInt64 x = x ↔ -2 ^ 63 ≤ x ∧ x < 2 ^ 63 := by
  unfold wrapInt64
  constructor
  · intro h
    omega
  · intro h
    omega

theorem wrapInt64_wrapInt64_add (x y : Int) :
    wrapInt64 (wrapInt64 x + y) = wrapInt64 (x + y) := by
  unfold wrapInt64
  omega

/-- C8 (as stated, refuted): the height is a `uint64` and the version an `int64`.  At height
2^64 - 1 with `VersionOffset` 1 the version `LoadHeight` opens is 0, not
`height + VersionOffset` = 2^64; on a state whose database holds a snapshot under version 0
and nothing under 2^64, `LoadHeight` returns a view (of version 0, holding account `accA`)
instead of failing. -/
theorem LoadHeight_version_wraps :
    (18446744073709551615 : Nat) < 2 ^ 64 ∧
    VersionAtHeight cfg0 18446744073709551615 = 0 ∧
    ((18446744073709551615 : Nat) : Int) + cfg0.VersionOffset = 18446744073709551616 ∧
    (NewState dbZero).writeState.forest.saved.lookup 18446744073709551616 = none ∧
    ((NewState dbZero).LoadHeight cfg0 18446744073709551615).toOption.map
      (fun view => view.GetAccount [1]) = some (some accA) := by
  decide

/-- C8 (amended): for every height, (1) `VersionAtHeight(height)` is `height + VersionOffset`
exactly when that sum fits an `int64` (from -2^63 to 2^63 - 1), and otherwise the sum wrapped
into that range; (2) a view that `LoadHeight` returns holds the forest snapshot that
`GetImmutable` opens at exactly version `VersionAtHeight(height)`; (3) when that version was
never persisted, `LoadHeight` returns an error and no view; (4) a view obtained before a
successful `Update` that commits a version above `VersionAtHeight(height)` is the view that
`LoadHeight` returns after that `Update`: reads at that height are the same before and after. -/
theorem LoadHeight_snapshot (cfg : Config) (s : State) (height : Nat) :
    ((VersionAtHeight cfg height = (height : Int) + cfg.VersionOffset ↔
        -2 ^ 63 ≤ (height : Int) + cfg.VersionOffset ∧
        (height : Int) + cfg.VersionOffset < 2 ^ 63) ∧
      VersionAtHeight cfg height = wrapInt64 ((height : Int) + cfg.VersionOffset)) ∧
    (∀ view, s.LoadHeight cfg height = .ok view →
      s.writeState.forest.GetImmutable (VersionAtHeight cfg height) = .ok view.Forest) ∧
    (s.writeState.forest.saved.lookup (VersionAtHeight cfg height) = none →
      ∃ err, s.LoadHeight cfg height = .error err) ∧
    (∀ view ops hash version s', s.LoadHeight cfg height = .ok view →
      s.Update cfg (script ops none) = ((hash, version, none), s') →
      version > VersionAtHeight cfg height →
      s'.LoadHeight cfg height = .ok view) := by
  have hwrap : VersionAtHeight cfg height = wrapInt64 ((height : Int) + cfg.VersionOffset) :=
    wrapInt64_wrapInt64_add _ _
  refine ⟨⟨?_, hwrap⟩, ?_, ?_, ?_⟩
  · rw [hwrap]
    exact wrapInt64_eq_iff _
  · intro view h
    simp only [State.LoadHeight] at h
    split at h
    · simp at h
    · rename_i forest hg
      split at h
      · simp at h
      · simp only [Except.ok.injEq] at h
        subst h
        exact hg
  · intro h
    simp only [State.LoadHeight, MutableForest.GetImmutable, h]
    cases s.writeState.forest.fault <;> simp
  · intro view ops hash version s' hv hu hgt
    obtain ⟨-, hsame⟩ := Update_script_GetImmutable cfg s s' ops hash version hu
    have hfun : ∀ v, v ≤ VersionAtHeight cfg height →
        s'.writeState.forest.GetImmutable v = s.writeState.forest.GetImmutable v :=
      fun v hle => hsame v (by omega)
    rw [← hv]
    simp only [State.LoadHeight, LoadValidatorRing]
    rw [hfun _ (le_refl _),
      loadBuckets_congr s'.writeState.forest.GetImmutable s.writeState.forest.GetImmutable
        cfg.VersionOffset DefaultValidatorsWindowSize _ hfun]

/-- C8 (witness): the scenario of the spec: account A with balance 100 is committed at version
1 (height 0, where `VersionAtHeight` is `height + VersionOffset`); a view loaded at height 0
reads 100; an update to balance 150 commits version 2; the live state then reads 150 while
`LoadHeight` at height 0 still returns the same view; height 5 was never persisted and
`LoadHeight` fails. -/
theorem LoadHeight_snapshot_witness :
    VersionAtHeight cfg0 0 = ((0 : Nat) : Int) + cfg0.VersionOffset ∧
    stateV1.LoadHeight cfg0 0 = .ok viewV1 ∧
    (viewV1.GetAccount [1]).map (fun a => a.Balance) = some 100 ∧
    (stateV1.Update cfg0 (script [.UpdateAccount { accA with Balance := 150 }] none)).1.2 =
      (2, none) ∧
    ((stateV1.Update cfg0 (script [.UpdateAccount { accA with Balance := 150 }]
      none)).2.ReadState.GetAccount [1]).map (fun a => a.Balance) = some 150 ∧
    (stateV1.Update cfg0 (script [.UpdateAccount { accA with Balance := 150 }]
      none)).2.LoadHeight cfg0 0 = .ok viewV1 ∧
    (∃ err, stateV1.LoadHeight cfg0 5 = .error err) :=
  ⟨(LoadHeight_snapshot cfg0 stateV1 0).1.1.mpr (by decide),
    rfl, by decide, by decide, by decide,
    (LoadHeight_snapshot cfg0 stateV1 0).2.2.2 viewV1
      [.UpdateAccount { accA with Balance := 150 }] _ _ _ rfl rfl (by decide),
    (LoadHeight_snapshot cfg0 stateV1 5).2.2.1 (by decide)⟩

/-! ## C9: contents of the genesis state -/

theorem UpdateAccount_accounts (ws ws' : writeState) (account : Account)
    (h : ws.UpdateAccount account = .ok ws') :
    ws'.accounts = ws.accounts.insert account.Address (.account account) := by
  simp only [writeState.UpdateAccount, MutableForest.Writer] at h
  split at h
  · simp at h
  · rename_i tree ht
    split at ht
    · simp at ht
    · simp only [Except.ok.injEq] at ht h
      subst ht
      subst h
      simp [writeState.accounts, MutableForest.put]

theorem SetPower_accounts (ws ws' : writeState) (id : Bytes) (power : Nat)
    (h : ws.SetPower id power = .ok ws') : ws'.accounts = ws.accounts := by
  simp only [writeState.SetPower, MutableForest.Writer] at h
  split at h
  · simp at h
  · rename_i tree ht
    split at ht
    · simp at ht
    · simp only [Except.ok.injEq] at ht h
      subst ht
      subst h
      have hne : accountTree ≠ validatorTree := by decide
      simp [writeState.accounts, MutableForest.put, AList.lookup_insert_ne hne]

theorem foldlM_accounts_keep (l : List GenesisAccount) (ws ws' : writeState)
    (h : l.foldlM (fun ws genAcc => ws.UpdateAccount (genesisAccount genAcc)) ws = .ok ws')
    (k : Bytes) (v : Value) (hk : ws.accounts.lookup k = some v)
    (hl : ∀ g ∈ l, g.Address ≠ k) : ws'.accounts.lookup k = some v := by
  induction l generalizing ws with
  | nil =>
    simp only [List.foldlM_nil, pure, Except.pure, Except.ok.injEq] at h
    subst h
    exact hk
  | cons g gs ih =>
    simp only [List.foldlM_cons] at h
    cases h1 : ws.UpdateAccount (genesisAccount g) with
    | error e => rw [h1] at h; simp [bind, Except.bind] at h
    | ok ws1 =>
      rw [h1] at h
      simp only [bind, Except.bind] at h
      refine ih ws1 h ?_ (fun g' hg' => hl g' (List.mem_cons_of_mem _ hg'))
      rw [UpdateAccount_accounts ws ws1 _ h1]
      have hne : k ≠ (genesisAccount g).Address := fun hh =>
        hl g (List.mem_cons_self _ _) (by simpa [genesisAccount] using hh.symm)
      rw [AList.lookup_insert_ne hne]
      exact hk

theorem foldlM_accounts_set (pre post : List GenesisAccount) (genAcc : GenesisAccount)
    (ws ws' : writeState)
    (h : (pre ++ genAcc :: post).foldlM
      (fun ws genAcc => ws.UpdateAccount (genesisAccount genAcc)) ws = .ok ws')
    (hl : ∀ g ∈ post, g.Address ≠ genAcc.Address) :
    ws'.accounts.lookup genAcc.Address = some (.account (genesisAccount genAcc)) := by
  induction pre generalizing ws with
  | nil =>
    simp only [List.nil_append, List.foldlM_cons] at h
    cases h1 : ws.UpdateAccount (genesisAccount genAcc) with
    | error e => rw [h1] at h; simp [bind, Except.bind] at h
    | ok ws1 =>
      rw [h1] at h
      simp only [bind, Except.bind] at h
      refine foldlM_accounts_keep post ws1 ws' h _ _ ?_ hl
      rw [UpdateAccount_accounts ws ws1 _ h1]
      simp [genesisAccount]
  | cons g gs ih =>
    simp only [List.cons_append, List.foldlM_cons] at h
    cases h1 : ws.UpdateAccount (genesisAccount g) with
    | error e => rw [h1] at h; simp [bind, Except.bind] at h
    | ok ws1 =>
      rw [h1] at h
      simp only [bind, Except.bind] at h
      exact ih ws1 h

theorem foldlM_validators_accounts (l : List GenesisValidator) (ws ws' : writeState)
    (h : l.foldlM (fun ws gv => ws.SetPower gv.PublicKey gv.Amount) ws = .ok ws') :
    ws'.accounts = ws.accounts := by
  induction l generalizing ws with
  | nil =>
    simp only [List.foldlM_nil, pure, Except.pure, Except.ok.injEq] at h
    subst h
    rfl
  | cons g gs ih =>
    simp only [List.foldlM_cons] at h
    cases h1 : ws.SetPower g.PublicKey g.Amount with
    | error e => rw [h1] at h; simp [bind, Except.bind] at h
    | ok ws1 =>
      rw [h1] at h
      simp only [bind, Except.bind] at h
      rw [ih ws1 h, SetPower_accounts ws ws1 _ _ h1]

theorem MakeGenesisState_inv (cfg : Config) (db : DB) (genesisDoc : GenesisDoc) (s : State)
    (h : MakeGenesisState cfg db genesisDoc = .ok s) :
    ∃ ws1 ws2 ws3,
      genesisDoc.Accounts.foldlM (fun ws genAcc => ws.UpdateAccount (genesisAccount genAcc))
        (NewState db).writeState = .ok ws1 ∧
      ws1.MakeGenesisValidators genesisDoc = .ok ws2 ∧
      ws2.UpdateAccount (permsAccount cfg genesisDoc) = .ok ws3 ∧
      s.writeState.forest.Reader = ws3.forest.working := by
  unfold MakeGenesisState at h
  simp only at h
  split at h
  · simp at h
  · rename_i ws1 h1
    split at h
    · simp at h
    · rename_i ws2 h2
      split at h
      · simp at h
      · rename_i ws3 h3
        split at h
        · simp at h
        · rename_i hash version s1 hc
          split at h
          · simp at h
          · simp only [Except.ok.injEq] at h
            subst h
            exact ⟨ws1, ws2, ws3, h1, h2, h3, (commit_success_inv cfg _ _ _ _ hc).2.2.2.2⟩

/-- C9 (as stated, refuted): `MakeGenesisState` succeeds on a document with two genesis accounts
at the same address (amounts 100 and 5) and the committed account holds balance 5, not the 100
of the first; and on a document with a genesis account at the sentinel address (amount 100) the
committed account there is the global-permissions account, balance 1337. -/
theorem MakeGenesisState_later_write_wins :
    (docRepeated.Accounts.map (fun g => (g.Address, g.Amount)) = [([1], 100), ([1], 5)] ∧
      (MakeGenesisState cfg0 db0 docRepeated).toOption.map
        (fun s => (s.ReadState.GetAccount [1]).map (fun a => a.Balance)) = some (some 5)) ∧
    (docSentinel.Accounts.map (fun g => (g.Address, g.Amount)) = [([0], 100)] ∧
      cfg0.GlobalPermissionsAddress = [0] ∧
      (MakeGenesisState cfg0 db0 docSentinel).toOption.map
        (fun s => (s.ReadState.GetAccount [0]).map (fun a => a.Balance)) =
        some (some 1337)) := by
  decide

/-- C9 (amended): for every genesis document for which `MakeGenesisState` succeeds, the
committed accounts tree holds, for every genesis account whose address is not the address of
a later genesis account nor the sentinel address, an account with that address, the genesis
amount as balance, no code and the genesis permissions; and it holds at the sentinel address
the account with balance 1337 whose base permissions have `SetBit = AllPermFlags` and the
permission values and roles of the document's global permissions. -/
theorem MakeGenesisState_accounts (cfg : Config) (db : DB) (genesisDoc : GenesisDoc)
    (s : State) (h : MakeGenesisState cfg db genesisDoc = .ok s) :
    (∀ pre genAcc post, genesisDoc.Accounts = pre ++ genAcc :: post →
      (∀ later ∈ post, later.Address ≠ genAcc.Address) →
      genAcc.Address ≠ cfg.GlobalPermissionsAddress →
      s.ReadState.GetAccount genAcc.Address =
        some { Address := genAcc.Address, Balance := genAcc.Amount, Code := [],
               Permissions := genAcc.Permissions }) ∧
    s.ReadState.GetAccount cfg.GlobalPermissionsAddress =
      some { Address := cfg.GlobalPermissionsAddress, Balance := 1337, Code := [],
             Permissions :=
               { Base := { Perms := genesisDoc.GlobalPermissions.Base.Perms,
                           SetBit := cfg.AllPermFlags },
                 Roles := genesisDoc.GlobalPermissions.Roles } } := by
  obtain ⟨ws1, ws2, ws3, h1, h2, h3, hr⟩ := MakeGenesisState_inv cfg db genesisDoc s h
  have hread : ∀ k, s.ReadState.GetAccount k =
      match ws3.accounts.lookup k with
      | some (.account a) => some a
      | _ => none := by
    intro k
    simp only [ReadState.GetAccount, State.ReadState, hr, Snapshot.get, writeState.accounts]
    cases ws3.forest.working.lookup accountTree <;> simp
  have h3' := UpdateAccount_accounts ws2 ws3 _ h3
  have h2' := foldlM_validators_accounts genesisDoc.Validators ws1 ws2 h2
  refine ⟨?_, ?_⟩
  · intro pre genAcc post hsplit hlater hsent
    rw [hread, h3']
    have hne : genAcc.Address ≠ (permsAccount cfg genesisDoc).Address := by
      simpa [permsAccount] using hsent
    rw [AList.lookup_insert_ne hne, h2']
    rw [hsplit] at h1
    rw [foldlM_accounts_set pre post genAcc _ ws1 h1 hlater]
    rfl
  · rw [hread, h3']
    have haddr : cfg.GlobalPermissionsAddress = (permsAccount cfg genesisDoc).Address := rfl
    rw [haddr, AList.lookup_insert]
    rfl

/-- C9 (witness): the genesis state of a document with accounts at the addresses 1 (amount 100)
and 2 holds them, and the global-permissions account with `SetBit = 32767`, at version 1. -/
theorem MakeGenesisState_accounts_witness :
    MakeGenesisState cfg0 db0 docTwo = .ok genesisTwo ∧
    genesisTwo.ReadState.GetAccount [1] = some ⟨[1], 100, [], ⟨⟨0, 0⟩, []⟩⟩ ∧
    genesisTwo.ReadState.GetAccount [2] = some ⟨[2], 0, [], ⟨⟨0, 0⟩, []⟩⟩ ∧
    genesisTwo.ReadState.GetAccount [0] = some ⟨[0], 1337, [], ⟨⟨3, 32767⟩, ["root"]⟩⟩ :=
  ⟨rfl,
    (MakeGenesisState_accounts cfg0 db0 docTwo genesisTwo rfl).1 []
      ⟨[1], 100, ⟨⟨0, 0⟩, []⟩⟩ [⟨[2], 0, ⟨⟨0, 0⟩, []⟩⟩] rfl (by decide) (by decide),
    (MakeGenesisState_accounts cfg0 db0 docTwo genesisTwo rfl).1 [⟨[1], 100, ⟨⟨0, 0⟩, []⟩⟩]
      ⟨[2], 0, ⟨⟨0, 0⟩, []⟩⟩ [] rfl (by decide) (by decide),
    (MakeGenesisState_accounts cfg0 db0 docTwo genesisTwo rfl).2⟩

/-! ## C10: envelope resolution of the transact server -/

/-- C10: given that `txs.Enclose` never returns nil, for every chain id: (1) for every non-nil
CallTx, SendTx or NameTx payload, `txEnvelopeParam(p).GetEnvelope(chainID)` is
`Enclose(chainID, p)`; (2) a param with a non-nil Envelope resolves to that Envelope whatever
its Payload; (3) `GetEnvelope` returns nil exactly when the param is nil, or its Envelope is nil
and its Payload is nil or has none of CallTx, SendTx, NameTx set; (4) whenever it returns nil,
BroadcastTxSync, BroadcastTxAsync and SignTx return the error "no transaction envelope or
payload provided" whatever the transactor's entry points are. -/
theorem GetEnvelope_resolution {Env TxExecution Receipt : Type}
    (Enclose : String → Payload → Option Env) (hEnclose : ∀ c p, Enclose c p ≠ none)
    (chainID : String) :
    ((∀ tx : CallTx, TxEnvelopeParam.GetEnvelope Enclose
        (txEnvelopeParam (.CallTx (some tx))) chainID = Enclose chainID (.CallTx (some tx))) ∧
      (∀ tx : SendTx, TxEnvelopeParam.GetEnvelope Enclose
        (txEnvelopeParam (.SendTx (some tx))) chainID = Enclose chainID (.SendTx (some tx))) ∧
      (∀ tx : NameTx, TxEnvelopeParam.GetEnvelope Enclose
        (txEnvelopeParam (.NameTx (some tx))) chainID = Enclose chainID (.NameTx (some tx)))) ∧
    (∀ env pp, TxEnvelopeParam.GetEnvelope Enclose
        (some { Envelope := some env, Payload := pp }) chainID = some env) ∧
    (∀ te : Option (TxEnvelopeParam Env), TxEnvelopeParam.GetEnvelope Enclose te chainID = none ↔
      (te = none ∨ ∃ t, te = some t ∧ t.Envelope = none ∧
        (t.Payload = none ∨ ∃ pp, t.Payload = some pp ∧
          pp.CallTx = none ∧ pp.SendTx = none ∧ pp.NameTx = none))) ∧
    (∀ (ts : transactServer Env TxExecution Receipt) (te : Option (TxEnvelopeParam Env)),
      TxEnvelopeParam.GetEnvelope Enclose te ts.transactor.ChainID = none →
      ts.BroadcastTxSync Enclose te = .error "no transaction envelope or payload provided" ∧
      ts.BroadcastTxAsync Enclose te = .error "no transaction envelope or payload provided" ∧
      ts.SignTx Enclose te = .error "no transaction envelope or payload provided") := by
  refine ⟨⟨?_, ?_, ?_⟩, ?_, ?_, ?_⟩
  · intro tx
    simp [TxEnvelopeParam.GetEnvelope, txEnvelopeParam, PayloadParam.Envelope]
  · intro tx
    simp [TxEnvelopeParam.GetEnvelope, txEnvelopeParam, PayloadParam.Envelope]
  · intro tx
    simp [TxEnvelopeParam.GetEnvelope, txEnvelopeParam, PayloadParam.Envelope]
  · intro env pp
    simp [TxEnvelopeParam.GetEnvelope]
  · intro te
    cases te with
    | none => simp [TxEnvelopeParam.GetEnvelope]
    | some t =>
      obtain ⟨envelope, payload⟩ := t
      cases envelope with
      | some env => simp [TxEnvelopeParam.GetEnvelope]
      | none =>
        cases payload with
        | none => simp [TxEnvelopeParam.GetEnvelope]
        | some pp =>
          obtain ⟨c, sd, n⟩ := pp
          cases c <;> cases sd <;> cases n <;>
            simp [TxEnvelopeParam.GetEnvelope, PayloadParam.Envelope, hEnclose]
  · intro ts te h
    simp [transactServer.BroadcastTxSync, transactServer.BroadcastTxAsync, transactServer.SignTx,
      h]

/-- C10 (witness): with an `Enclose` that pairs chain id and payload, a CallTx payload resolves
to its enclosure, and a param with neither envelope nor payload makes the three entry points
fail without a result of the transactor. -/
theorem GetEnvelope_resolution_witness :
    TxEnvelopeParam.GetEnvelope exampleEnclose
        (txEnvelopeParam (.CallTx (some ⟨[1], some [2], []⟩))) "chain" =
      some ("chain", .CallTx (some ⟨[1], some [2], []⟩)) ∧
    transactServer.BroadcastTxSync exampleEnclose
        (⟨⟨"chain", fun _ => .ok [1], fun _ => .ok [2], fun env => .ok env⟩⟩ :
          transactServer ExampleEnvelope Bytes Bytes)
        (some { Envelope := none, Payload := none }) =
      .error "no transaction envelope or payload provided" :=
  ⟨(@GetEnvelope_resolution ExampleEnvelope Bytes Bytes exampleEnclose
      (fun _ _ => by simp [exampleEnclose]) "chain").1.1 ⟨[1], some [2], []⟩,
    ((@GetEnvelope_resolution ExampleEnvelope Bytes Bytes exampleEnclose
      (fun _ _ => by simp [exampleEnclose]) "chain").2.2.2
      ⟨⟨"chain", fun _ => .ok [1], fun _ => .ok [2], fun env => .ok env⟩⟩
      (some { Envelope := none, Payload := none }) rfl).1⟩

end Burrow
